import Mathlib

/-!
# Verification of the anvil in-memory blockchain backend

Shallow embedding of `crates/anvil/src/eth/backend/mem/mod.rs` (the `Backend`
orchestrator of the in-memory Ethereum development node): blockchain storage,
block mining, state snapshots, state dump/load, transaction validation and
nonce queries.  Machine integers (`u64`, `u128`, `U256`) are modelled as `Nat`
with explicit bounds/wrapping where the source saturates or wraps; hashes
(`B256`) are modelled as `Nat`; hash maps are modelled as association lists
with insert-overwrite semantics.
-/

namespace Anvil

/-! ## Association-list maps

`alloy_primitives::map::HashMap` / `BTreeMap` keyed by `Nat` (block numbers,
block hashes, transaction hashes, snapshot ids).  `insertA` overwrites,
`removeA` deletes, mirroring `HashMap::insert` / `HashMap::remove`. -/

def lookupA {α : Type} : List (Nat × α) → Nat → Option α
  | [], _ => none
  | (k, v) :: rest, key => if k = key then some v else lookupA rest key

def removeA {α : Type} : List (Nat × α) → Nat → List (Nat × α)
  | [], _ => []
  | (k', v) :: rest, k => if k' = k then removeA rest k else (k', v) :: removeA rest k

def insertA {α : Type} (m : List (Nat × α)) (k : Nat) (v : α) : List (Nat × α) :=
  (k, v) :: removeA m k

/-- Number of keys in the map (`HashMap::len`); every key occurs at most once
in maps built by `insertA`/`removeA`. -/
def sizeA {α : Type} (m : List (Nat × α)) : Nat := m.length

def insertAllA {α : Type} (m : List (Nat × α)) (l : List (Nat × α)) : List (Nat × α) :=
  l.foldl (fun acc p => insertA acc p.1 p.2) m

theorem lookupA_removeA {α : Type} (m : List (Nat × α)) (k k' : Nat) :
    lookupA (removeA m k) k' = if k' = k then none else lookupA m k' := by
  induction m with
  | nil => simp [removeA, lookupA]
  | cons p rest ih =>
    obtain ⟨a, v⟩ := p
    by_cases hk : k' = k
    · subst hk
      rw [if_pos rfl]
      by_cases hak : a = k'
      · simp [removeA, if_pos hak, ih]
      · simp [removeA, if_neg hak, lookupA, ih]
    · rw [if_neg hk]
      by_cases hak : a = k
      · simp only [removeA, if_pos hak, ih, if_neg hk, lookupA]
        rw [if_neg (fun h : a = k' => hk (h.symm.trans hak))]
      · simp only [removeA, if_neg hak, lookupA, ih, if_neg hk]

theorem lookupA_insertA_self {α : Type} (m : List (Nat × α)) (k : Nat) (v : α) :
    lookupA (insertA m k v) k = some v := by
  simp [insertA, lookupA]

theorem lookupA_insertA_ne {α : Type} (m : List (Nat × α)) (k k' : Nat) (v : α)
    (h : k' ≠ k) : lookupA (insertA m k v) k' = lookupA m k' := by
  simp only [insertA, lookupA, if_neg (fun hc : k = k' => h hc.symm), lookupA_removeA, if_neg h]

theorem lookupA_insertA {α : Type} (m : List (Nat × α)) (k k' : Nat) (v : α) :
    lookupA (insertA m k v) k' = if k' = k then some v else lookupA m k' := by
  by_cases h : k' = k
  · subst h; simp [lookupA_insertA_self]
  · simp [h, lookupA_insertA_ne m k k' v h]

theorem lookupA_mem {α : Type} {m : List (Nat × α)} {k : Nat} {v : α}
    (h : lookupA m k = some v) : (k, v) ∈ m := by
  induction m with
  | nil => simp [lookupA] at h
  | cons p rest ih =>
    obtain ⟨a, b⟩ := p
    by_cases hk : a = k
    · simp only [lookupA, if_pos hk, Option.some.injEq] at h
      rw [List.mem_cons]
      exact Or.inl (by rw [hk, h])
    · simp only [lookupA, if_neg hk] at h
      exact List.mem_cons.mpr (Or.inr (ih h))

theorem lookupA_eq_none {α : Type} {m : List (Nat × α)} {k : Nat}
    (h : k ∉ m.map Prod.fst) : lookupA m k = none := by
  induction m with
  | nil => rfl
  | cons p rest ih =>
    simp only [List.map_cons, List.mem_cons] at h
    push_neg at h
    simp only [lookupA, if_neg (Ne.symm h.1)]
    exact ih h.2

theorem lookupA_isSome_of_mem_keys {α : Type} {m : List (Nat × α)} {k : Nat}
    (h : k ∈ m.map Prod.fst) : (lookupA m k).isSome := by
  induction m with
  | nil => simp at h
  | cons p rest ih =>
    by_cases hk : p.1 = k
    · simp [lookupA, hk]
    · simp only [List.map_cons, List.mem_cons] at h
      rcases h with h | h
      · exact absurd h.symm hk
      · simp only [lookupA, if_neg hk]
        exact ih h

theorem lookupA_insertAllA_not_mem {α : Type} (m : List (Nat × α))
    (l : List (Nat × α)) (k : Nat) (h : k ∉ l.map Prod.fst) :
    lookupA (insertAllA m l) k = lookupA m k := by
  induction l generalizing m with
  | nil => rfl
  | cons p rest ih =>
    simp only [List.map_cons, List.mem_cons] at h
    push_neg at h
    show lookupA (insertAllA (insertA m p.1 p.2) rest) k = lookupA m k
    rw [ih (insertA m p.1 p.2) h.2, lookupA_insertA_ne _ _ _ _ h.1]

theorem lookupA_insertAllA_mem {α : Type} (m : List (Nat × α))
    (l : List (Nat × α)) (k : Nat) (v : α)
    (hnd : (l.map Prod.fst).Nodup) (hmem : (k, v) ∈ l) :
    lookupA (insertAllA m l) k = some v := by
  induction l generalizing m with
  | nil => simp at hmem
  | cons p rest ih =>
    simp only [List.map_cons, List.nodup_cons] at hnd
    rcases List.mem_cons.mp hmem with heq | htail
    · subst heq
      show lookupA (insertAllA (insertA m k v) rest) k = some v
      rw [lookupA_insertAllA_not_mem _ _ _ hnd.1, lookupA_insertA_self]
    · show lookupA (insertAllA (insertA m p.1 p.2) rest) k = some v
      exact ih (insertA m p.1 p.2) hnd.2 htail

/-- Folding `insertA` over the empty map reproduces `lookupA` on the original
duplicate-free list. -/
theorem lookupA_insertAllA_nil {α : Type} (l : List (Nat × α)) (k : Nat)
    (hnd : (l.map Prod.fst).Nodup) :
    lookupA (insertAllA ([] : List (Nat × α)) l) k = lookupA l k := by
  cases hl : lookupA l k with
  | none =>
    have hnot : k ∉ l.map Prod.fst := by
      intro hmem
      have := lookupA_isSome_of_mem_keys hmem
      rw [hl] at this
      simp at this
    rw [lookupA_insertAllA_not_mem _ _ _ hnot]
    rfl
  | some v => exact lookupA_insertAllA_mem _ _ _ _ hnd (lookupA_mem hl)

/-! ## Data model -/

/-- Block header (`alloy_consensus::Header`), restricted to the fields the
claims exercise. -/
structure Header where
  number : Nat
  parent_hash : Nat
  timestamp : Nat
  gas_limit : Nat
  gas_used : Nat
  beneficiary : Nat
  difficulty : Nat
  mix_hash : Nat
  base_fee_per_gas : Option Nat
  excess_blob_gas : Option Nat
  blob_gas_used : Option Nat
  deriving Repr, DecidableEq

/-- A block (`anvil_core::eth::block::Block`): header plus ordered transaction
list; transactions are identified by their hash. -/
structure Blk where
  header : Header
  transactions : List Nat
  deriving Repr, DecidableEq

/-- `Header::hash_slow`: `keccak256(RLP(header))`.  Modelled from the spec
("Block hash = keccak256(RLP(header))"): keccak over the RLP encoding is
external and is modelled as an injective pairing of the header fields. -/
def hash_slow (h : Header) : Nat :=
  Nat.pair h.number (Nat.pair h.parent_hash (Nat.pair h.timestamp
    (Nat.pair h.gas_limit (Nat.pair h.difficulty h.mix_hash))))

/-- `storage::MinedTransaction` (a transaction-index entry): the transaction
hash (`info.transaction_hash`) plus the block it was mined in. -/
structure MinedTx where
  transaction_hash : Nat
  block_hash : Nat
  block_number : Nat
  deriving Repr, DecidableEq

/-- `storage::BlockchainStorage`: the three indexes (`hash → Block`,
`number → hash`, `tx hash → MinedTransaction`) plus chain-head metadata. -/
structure BlockchainStorage where
  blocks : List (Nat × Blk)
  hashes : List (Nat × Nat)
  transactions : List (Nat × MinedTx)
  best_hash : Nat
  best_number : Nat
  total_difficulty : Nat
  deriving Repr, DecidableEq

/-- `SpecId` ordinals (`revm::primitives::hardfork::SpecId`); only the relative
order matters, values follow the enum's declaration order. -/
def SPURIOUS_DRAGON : Nat := 5

def LONDON : Nat := 12

def MERGE : Nat := 15

def CANCUN : Nat := 17

def PRAGUE : Nat := 18

def OSAKA : Nat := 19

/-- `revm::context_interface::block::BlobExcessGasAndPrice`. -/
structure BlobExcessGasAndPrice where
  excess_blob_gas : Nat
  blob_gasprice : Nat
  deriving Repr, DecidableEq

/-- `revm::context::BlockEnv`, restricted to the fields the claims exercise. -/
structure BlockEnv where
  number : Nat
  timestamp : Nat
  gas_limit : Nat
  basefee : Nat
  difficulty : Nat
  prevrandao : Option Nat
  beneficiary : Nat
  blob_excess_gas_and_price : Option BlobExcessGasAndPrice
  deriving Repr, DecidableEq

/-- `revm::context::CfgEnv`, restricted to the fields the claims exercise. -/
structure CfgEnv where
  chain_id : Nat
  spec : Nat
  disable_base_fee : Bool
  disable_block_gas_limit : Bool
  disable_nonce_check : Bool
  deriving Repr, DecidableEq

/-- `backend::env::Env`, flattened: the source's `env.evm_env.block_env` and
`env.evm_env.cfg_env` are written here as `env.block_env` / `env.cfg_env`. -/
structure Env where
  block_env : BlockEnv
  cfg_env : CfgEnv
  deriving Repr, DecidableEq

/-- `u64::saturating_add` (block numbers are `u64`). -/
def saturating_add64 (a b : Nat) : Nat := min (a + b) (2 ^ 64 - 1)

/-- `U256::saturating_add` (env block numbers and difficulties are `U256`). -/
def saturating_add256 (a b : Nat) : Nat := min (a + b) (2 ^ 256 - 1)

/-- `is_arbitrum(chain_id)` (line 3469): true when `alloy_chains::NamedChain`
classifies the chain id as Arbitrum.  The `NamedChain` crate is external; the
chain ids it recognizes as Arbitrum are listed explicitly. -/
def is_arbitrum (chain_id : Nat) : Bool :=
  chain_id == 42161 || chain_id == 42170 || chain_id == 421611 ||
    chain_id == 421613 || chain_id == 421614

/-! ## Mining (`Backend::do_mine_block`) -/

/-- Modelled from the spec (§4.6 Executor): `TransactionExecutor::execute` is
defined in `executor.rs`, outside this file.  It assembles the header from the
block env and the given parent hash and includes the candidate transactions in
arrival order.  Per-transaction validation is modelled separately
(`validate_pool_transaction_for`); the claims settled here do not depend on
which candidates are dropped nor on gas accounting, so all candidates are
included and `gas_used` is left abstracted at 0. -/
def execute_transactions (block_env : BlockEnv) (cfg : CfgEnv) (parent_hash : Nat)
    (pending : List Nat) : Blk :=
  { header :=
      { number := block_env.number
        parent_hash := parent_hash
        timestamp := block_env.timestamp
        gas_limit := block_env.gas_limit
        gas_used := 0
        beneficiary := block_env.beneficiary
        difficulty := block_env.difficulty
        mix_hash := block_env.prevrandao.getD 0
        base_fee_per_gas := if LONDON ≤ cfg.spec then some block_env.basefee else none
        excess_blob_gas :=
          if CANCUN ≤ cfg.spec then
            some (((block_env.blob_excess_gas_and_price).map
              (fun b => b.excess_blob_gas)).getD 0)
          else none
        blob_gas_used := if CANCUN ≤ cfg.spec then some 0 else none }
    transactions := pending }

/-- Modelled from the spec (§4.4 FeeManager): `fees.rs` is outside this file.
Next-block base fee per EIP-1559 over (parent gas used, gas target =
gas limit / elasticity, parent base fee), elasticity 2, change denominator 8. -/
def get_next_block_base_fee_per_gas (gas_used gas_limit base_fee : Nat) : Nat :=
  let gas_target := gas_limit / 2
  if gas_used = gas_target then base_fee
  else if gas_target < gas_used then
    base_fee + max 1 (base_fee * (gas_used - gas_target) / gas_target / 8)
  else base_fee - base_fee * (gas_target - gas_used) / gas_target / 8

/-- Modelled from the spec (§4.4): next-block blob excess gas per EIP-4844,
`max(excess + used - target, 0)` with target 393216; the derived blob gas
price (`fake_exponential`, external) is abstracted at 0 — no claim reads it. -/
def get_next_block_blob_excess_gas (excess blob_gas_used : Nat) : Nat :=
  excess + blob_gas_used - 393216

/-- Modelled from the spec (§4.3): `BlockchainStorage::remove_block_transactions_by_number`
is defined in `storage.rs`, outside this file.  Per the spec (§8: the block's
"transactions are purged from the tx index but the block header remains") it
resolves the number to a hash, removes that block's transactions from the
transaction index and clears them from the stored block, keeping the header. -/
def remove_block_transactions_by_number (s : BlockchainStorage) (num : Nat) :
    BlockchainStorage :=
  match lookupA s.hashes num with
  | none => s
  | some h =>
    match lookupA s.blocks h with
    | none => s
    | some b =>
      { s with
        transactions := b.transactions.foldl removeA s.transactions
        blocks := insertA s.blocks h { b with transactions := [] } }

/-- The state `do_mine_block` touches: the chain env (`self.env`), blockchain
storage, and the `FeeManager`'s current base fee and blob excess/price.  The
`StateDatabase` mutation performed by the executor and the historical-state
insertion are not modelled: no claim settled here reads them. -/
structure MineState where
  env : Env
  storage : BlockchainStorage
  fees_base_fee : Nat
  fees_blob : Option BlobExcessGasAndPrice
  deriving Repr, DecidableEq

/-- `storage::MinedBlockOutcome`, restricted to the reported block number
(the `included`/`invalid` sets depend on the abstracted executor). -/
structure MinedBlockOutcome where
  block_number : Nat
  deriving Repr, DecidableEq

/-- The environment prepared by `do_mine_block` (lines 1290–1329) and handed
to the `TransactionExecutor`: clone of `self.env`; base fee check disabled if
the env's base fee is zero; block number = storage best number + 1 for
Arbitrum chains, env increment otherwise; base fee and blob excess/price taken
from the `FeeManager`; fresh prevrandao `rand` (`B256::random()`); timestamp
`ts` (`self.time.next_timestamp()`). -/
def mine_env (st : MineState) (rand ts : Nat) : Env :=
  let env := st.env
  let env := if env.block_env.basefee = 0 then
      { env with cfg_env := { env.cfg_env with disable_base_fee := true } }
    else env
  let block_number := saturating_add64 st.storage.best_number 1
  let env := if is_arbitrum env.cfg_env.chain_id then
      { env with block_env := { env.block_env with number := block_number } }
    else
      { env with block_env :=
          { env.block_env with number := saturating_add256 env.block_env.number 1 } }
  { env with block_env :=
      { env.block_env with
        basefee := st.fees_base_fee
        blob_excess_gas_and_price := st.fees_blob
        prevrandao := some rand
        timestamp := ts } }

/-- The storage update of `do_mine_block` performed under the
`blockchain.storage` write lock (lines 1370–1382): best number/hash, total
difficulty (pre-Merge only), and both block indexes. -/
def commit_block (storage : BlockchainStorage) (env : Env) (block_number : Nat)
    (block : Blk) (block_hash : Nat) : BlockchainStorage :=
  { storage with
    best_number := block_number
    best_hash := block_hash
    total_difficulty :=
      if MERGE ≤ env.cfg_env.spec then storage.total_difficulty
      else saturating_add256 storage.total_difficulty block.header.difficulty
    blocks := insertA storage.blocks block_hash block
    hashes := insertA storage.hashes block_number block_hash }

/-- The transaction-index insertion loop of `do_mine_block` (lines 1386–1404),
still under the same write lock. -/
def insert_mined_txs (storage : BlockchainStorage) (txs : List Nat)
    (block_hash block_number : Nat) : BlockchainStorage :=
  txs.foldl
    (fun s txh =>
      let mined : MinedTx :=
        { transaction_hash := txh, block_hash := block_hash, block_number := block_number }
      { s with transactions := insertA s.transactions txh mined })
    storage

/-- The `transaction_block_keeper` retention step of `do_mine_block`
(lines 1406–1413). -/
def apply_tx_keeper (keeper : Option Nat) (s : BlockchainStorage)
    (block_number : Nat) : BlockchainStorage :=
  match keeper with
  | some k =>
    if k < sizeA s.blocks then remove_block_transactions_by_number s (block_number - k)
    else s
  | none => s

/-- `Backend::do_mine_block` (lines 1279–1456), as a pure transformation of
`MineState`.  The `mining` mutex and the `db`/`storage` locks serialize the
source; the entire critical section is rendered as this single function.
`keeper` is `self.transaction_block_keeper`. -/
def do_mine_block (keeper : Option Nat) (st : MineState) (rand ts : Nat)
    (pool_transactions : List Nat) : MinedBlockOutcome × MineState :=
  let env := mine_env st rand ts
  let block_number := saturating_add64 st.storage.best_number 1
  let block := execute_transactions env.block_env env.cfg_env st.storage.best_hash
      pool_transactions
  let block_hash := hash_slow block.header
  let storage := commit_block st.storage env block_number block block_hash
  let storage := insert_mined_txs storage block.transactions block_hash block_number
  let storage := apply_tx_keeper keeper storage block_number
  let env := { env with block_env := { env.block_env with difficulty := 0 } }
  let header := block.header
  ({ block_number := block_number },
   { env := env
     storage := storage
     fees_base_fee := get_next_block_base_fee_per_gas header.gas_used header.gas_limit
       (header.base_fee_per_gas.getD 0)
     fees_blob := some
       { excess_blob_gas := get_next_block_blob_excess_gas
           (header.excess_blob_gas.getD 0) (header.blob_gas_used.getD 0)
         blob_gasprice := 0 } })

/-- `Backend::build_call_env` (lines 1496–1613), restricted to the `Env`
configuration it produces; the `TxEnv` assembly (caller, gas and deposit
fields) bears on no claim and is omitted.  `nonce` is the request's optional
nonce. -/
def build_call_env (env : Env) (nonce : Option Nat) (block_env : BlockEnv) : Env :=
  let env := { env with block_env := block_env }
  let env := { env with cfg_env := { env.cfg_env with disable_block_gas_limit := true } }
  let env := { env with cfg_env := { env.cfg_env with disable_base_fee := true } }
  let env := match nonce with
    | some _ => env
    | none => { env with cfg_env := { env.cfg_env with disable_nonce_check := true } }
  if env.block_env.basefee = 0 then
    { env with cfg_env := { env.cfg_env with disable_base_fee := true } }
  else env

/-! ## Example states (used by witnesses) -/

/-- A small genesis header. -/
def exGenesisHeader : Header :=
  { number := 0, parent_hash := 0, timestamp := 0, gas_limit := 30000000
    gas_used := 0, beneficiary := 0, difficulty := 0, mix_hash := 0
    base_fee_per_gas := some 1000000000, excess_blob_gas := none, blob_gas_used := none }

/-- Genesis block with no transactions. -/
def exGenesisBlock : Blk := { header := exGenesisHeader, transactions := [] }

/-- Storage holding only the genesis block. -/
def exStorage : BlockchainStorage :=
  { blocks := [(hash_slow exGenesisHeader, exGenesisBlock)]
    hashes := [(0, hash_slow exGenesisHeader)]
    transactions := []
    best_hash := hash_slow exGenesisHeader
    best_number := 0
    total_difficulty := 0 }

/-- A plain post-Cancun environment at block 0. -/
def exEnv : Env :=
  { block_env :=
      { number := 0, timestamp := 0, gas_limit := 30000000, basefee := 1000000000
        difficulty := 0, prevrandao := some 0, beneficiary := 0
        blob_excess_gas_and_price := none }
    cfg_env :=
      { chain_id := 31337, spec := CANCUN, disable_base_fee := false
        disable_block_gas_limit := false, disable_nonce_check := false } }

/-- Mining state over the example genesis storage. -/
def exMineState : MineState :=
  { env := exEnv, storage := exStorage, fees_base_fee := 875000000, fees_blob := none }

/-- Mining state whose env carries a zero base fee. -/
def exMineStateZeroBasefee : MineState :=
  { exMineState with
    env := { exEnv with block_env := { exEnv.block_env with basefee := 0 } } }

/-! ## Transaction validation (`impl TransactionValidator for Backend`) -/

/-- Gas per transaction not creating a contract (line 145). -/
def MIN_TRANSACTION_GAS : Nat := 21000

/-- `error::InvalidTransactionError`, restricted to the variants
`validate_pool_transaction_for` can produce. -/
inductive InvalidTransactionError where
  | IncompatibleEIP155
  | InvalidChainId
  | GasTooLow
  | GasTooHigh
  | NonceTooLow
  | FeeCapTooLow
  | TipAboveFeeCap
  | BlobFeeCapTooLow
  | NoBlobHashes
  | TooManyBlobs (count max : Nat)
  | BlobTransactionValidationError
  | InsufficientFunds
  deriving Repr, DecidableEq

instance {ε α : Type} [DecidableEq ε] [DecidableEq α] : DecidableEq (Except ε α) :=
  fun a b =>
    match a, b with
    | .error e, .error f =>
      if h : e = f then isTrue (by rw [h]) else isFalse (by intro hc; cases hc; exact h rfl)
    | .ok x, .ok y =>
      if h : x = y then isTrue (by rw [h]) else isFalse (by intro hc; cases hc; exact h rfl)
    | .error _, .ok _ => isFalse (by intro hc; cases hc)
    | .ok _, .error _ => isFalse (by intro hc; cases hc)

/-- A candidate transaction as observed by `validate_pool_transaction_for`
through the accessors of `anvil_core`'s `PendingTransaction`/`TypedTransaction`
(defined outside this file): each field models one accessor.
`chain_id` is `tx.chain_id()` — the chain id the transaction carries; for a
legacy transaction this can be derived from the EIP-155 signature parity even
when the explicit field is absent, so `legacy_chain_id` (the explicit
`legacy.tx().chain_id` field) is modelled separately.  `kzg_valid` models the
outcome of the external KZG blob check `tx.validate(...)`; `max_cost` models
`tx.max_cost()` (`u128`, fee cap × gas limit, computed in `anvil_core`). -/
structure PendingTx where
  chain_id : Option Nat
  is_legacy : Bool
  legacy_chain_id : Option Nat
  is_deposit : Bool
  mint : Nat
  is_eip4844 : Bool
  gas_limit : Nat
  nonce : Nat
  gas_price : Nat
  max_priority_fee_per_gas : Option Nat
  max_fee_per_gas : Option Nat
  max_fee_per_blob_gas : Option Nat
  blob_count : Nat
  kzg_valid : Bool
  max_cost : Nat
  value : Nat
  deriving Repr, DecidableEq

/-- `revm::state::AccountInfo`, restricted to the fields validation reads. -/
structure AccountInfo where
  balance : Nat
  nonce : Nat
  deriving Repr, DecidableEq

/-- `Backend::blob_params().max_blob_count` (lines 831–843): Osaka/Prague
params allow 9 blobs, Cancun 6 (`alloy_eips::eip7840::BlobParams`). -/
def blob_params_max_blob_count (spec : Nat) : Nat :=
  if OSAKA ≤ spec then 9 else if PRAGUE ≤ spec then 9 else 6

/-- The tip check of lines 3224–3230: both essentials present and
`max_priority_fee_per_gas > max_fee_per_gas`. -/
def tip_above_fee_cap (tx : PendingTx) : Bool :=
  match tx.max_priority_fee_per_gas, tx.max_fee_per_gas with
  | some tip, some cap => decide (cap < tip)
  | _, _ => false

/-- The blob-fee check of lines 3236–3242: a blob fee cap and a block blob
price are present and the cap is below the price. -/
def blob_fee_cap_too_low (tx : PendingTx) (env : Env) : Bool :=
  match tx.max_fee_per_blob_gas, env.block_env.blob_excess_gas_and_price with
  | some cap, some bp => decide (cap < bp.blob_gasprice)
  | _, _ => false

/-- The checks of `validate_pool_transaction_for` after the chain-id check
(lines 3194–3299), as a guard cascade mirroring the source's early returns.
In the non-deposit balance check, `min tx.value (2^128 - 1)` is
`value.saturating_to::<u128>()` and the `2^128 ≤ _` guard is the `None` case
of `max_cost.checked_add(..)`; in the deposit branch the `U256` sum
`account.balance + mint` is taken modulo `2^256`. -/
def validate_pool_transaction_checks (tx : PendingTx) (account : AccountInfo)
    (env : Env) (skip_blob : Bool) : Except InvalidTransactionError Unit :=
  if tx.gas_limit < MIN_TRANSACTION_GAS then
    Except.error InvalidTransactionError.GasTooLow
  else if env.cfg_env.disable_block_gas_limit = false ∧
      env.block_env.gas_limit < tx.gas_limit then
    Except.error InvalidTransactionError.GasTooHigh
  else if tx.nonce < account.nonce ∧ tx.is_deposit = false then
    Except.error InvalidTransactionError.NonceTooLow
  else if LONDON ≤ env.cfg_env.spec ∧ tx.gas_price < env.block_env.basefee ∧
      tx.is_deposit = false then
    Except.error InvalidTransactionError.FeeCapTooLow
  else if LONDON ≤ env.cfg_env.spec ∧ tip_above_fee_cap tx = true then
    Except.error InvalidTransactionError.TipAboveFeeCap
  else if CANCUN ≤ env.cfg_env.spec ∧ tx.is_eip4844 = true ∧
      blob_fee_cap_too_low tx env = true then
    Except.error InvalidTransactionError.BlobFeeCapTooLow
  else if CANCUN ≤ env.cfg_env.spec ∧ tx.is_eip4844 = true ∧ tx.blob_count = 0 then
    Except.error InvalidTransactionError.NoBlobHashes
  else if CANCUN ≤ env.cfg_env.spec ∧ tx.is_eip4844 = true ∧
      blob_params_max_blob_count env.cfg_env.spec < tx.blob_count then
    Except.error (InvalidTransactionError.TooManyBlobs tx.blob_count
      (blob_params_max_blob_count env.cfg_env.spec))
  else if CANCUN ≤ env.cfg_env.spec ∧ tx.is_eip4844 = true ∧ skip_blob = false ∧
      tx.kzg_valid = false then
    Except.error InvalidTransactionError.BlobTransactionValidationError
  else if tx.is_deposit = true then
    if (account.balance + tx.mint) % 2 ^ 256 < tx.value then
      Except.error InvalidTransactionError.InsufficientFunds
    else Except.ok ()
  else if 2 ^ 128 ≤ tx.max_cost + min tx.value (2 ^ 128 - 1) then
    Except.error InvalidTransactionError.InsufficientFunds
  else if account.balance < tx.max_cost + min tx.value (2 ^ 128 - 1) then
    Except.error InvalidTransactionError.InsufficientFunds
  else Except.ok ()

/-- `Backend::validate_pool_transaction_for` (lines 3168–3300): the chain-id
check of lines 3176–3192 followed by the remaining checks.  `self.chain_id()`
reads the chain id of the backend's own env, which is the same `cfg_env` the
`env` argument carries on the only call path (`next_env()` clones it), so it
is rendered as `env.cfg_env.chain_id`.  `skip_blob` models
`self.skip_blob_validation(Some(*pending.sender()))`. -/
def validate_pool_transaction_for (tx : PendingTx) (account : AccountInfo)
    (env : Env) (skip_blob : Bool) : Except InvalidTransactionError Unit :=
  match tx.chain_id with
  | some tx_chain_id =>
    if env.cfg_env.chain_id ≠ tx_chain_id then
      if tx.is_legacy = true then
        if SPURIOUS_DRAGON ≤ env.cfg_env.spec ∧ tx.legacy_chain_id = none then
          Except.error InvalidTransactionError.IncompatibleEIP155
        else validate_pool_transaction_checks tx account env skip_blob
      else Except.error InvalidTransactionError.InvalidChainId
    else validate_pool_transaction_checks tx account env skip_blob
  | none => validate_pool_transaction_checks tx account env skip_blob

/-- A legacy transaction that carries an explicit chain id 2 (mismatching the
example env's chain id 31337) and passes every other check. -/
def exLegacyMismatchTx : PendingTx :=
  { chain_id := some 2, is_legacy := true, legacy_chain_id := some 2
    is_deposit := false, mint := 0, is_eip4844 := false
    gas_limit := 21000, nonce := 0, gas_price := 1000000000
    max_priority_fee_per_gas := none, max_fee_per_gas := none
    max_fee_per_blob_gas := none, blob_count := 0, kzg_valid := true
    max_cost := 21000000000000, value := 0 }

/-- An account with ample balance. -/
def exAccount : AccountInfo := { balance := 1000000000000000000, nonce := 0 }

/-- A deposit transaction minting 5 with value 7. -/
def exDepositTx : PendingTx :=
  { chain_id := none, is_legacy := false, legacy_chain_id := none
    is_deposit := true, mint := 5, is_eip4844 := false
    gas_limit := 21000, nonce := 3, gas_price := 0
    max_priority_fee_per_gas := none, max_fee_per_gas := none
    max_fee_per_blob_gas := none, blob_count := 0, kzg_valid := true
    max_cost := 0, value := 7 }

/-- An account with balance 3 (so 3 + mint 5 = 8 ≥ value 7). -/
def exPoorAccount : AccountInfo := { balance := 3, nonce := 0 }

/-- A non-legacy (EIP-1559-style) transaction carrying mismatching chain id 2. -/
def exNonLegacyMismatchTx : PendingTx :=
  { exLegacyMismatchTx with is_legacy := false, legacy_chain_id := none }

/-! ## Nonce queries (`Backend::get_nonce`) -/

/-- A pool transaction as observed by `get_pool_transactions_nonce`:
`*tx.pending_transaction.sender()` and `tx.pending_transaction.nonce()`. -/
structure PoolTx where
  sender : Nat
  nonce : Nat
  deriving Repr, DecidableEq

/-- `BlockRequest` (lines 169–181): pending (with the pool snapshot) or a
specific block number. -/
inductive BlockRequest where
  | Pending (pool : List PoolTx)
  | Number (n : Nat)
  deriving Repr, DecidableEq

/-- `get_pool_transactions_nonce` (lines 3140–3154): the maximum nonce among
the sender's pool transactions plus one (`u64::saturating_add`), if any. -/
def get_pool_transactions_nonce (pool_transactions : List PoolTx) (address : Nat) :
    Option Nat :=
  match ((pool_transactions.filter (fun tx => tx.sender == address)).map
      (fun tx => tx.nonce)).max? with
  | some highest_nonce => some (saturating_add64 highest_nonce 1)
  | none => none

/-- `Backend::get_nonce` (lines 2515–2535).  `state_nonce b a` models the
account nonce read through `with_database_at` at block `b`
(`db.basic_ref(address).nonce`); `best_number` models `self.best_number()`. -/
def get_nonce (state_nonce : Nat → Nat → Nat) (best_number : Nat) (address : Nat)
    (block_request : BlockRequest) : Nat :=
  match block_request with
  | BlockRequest.Pending pool_transactions =>
    match get_pool_transactions_nonce pool_transactions address with
    | some value => value
    | none => state_nonce best_number address
  | BlockRequest.Number bn => state_nonce bn address

/-! ## State snapshots (`create_state_snapshot` / `revert_state_snapshot`) -/

/-- `error::BlockchainError`, restricted to the variants the snapshot and
state-load paths can produce (`RpcInternal` stands for the
`RpcError::internal_error_with("Best hash not found ...")` case). -/
inductive BlockchainError where
  | BlockNotFound
  | RpcInternal
  deriving Repr, DecidableEq

/-- The backend state the snapshot operations touch: blockchain storage, env,
the `active_state_snapshots` map (id → (best_number, best_hash)), the
`TimeManager` reset target, and the `StateDatabase` snapshot store.  The db
store is modelled from the spec (§3 Snapshot, §4.1 `snapshot` /
`revert_snapshot(action ∈ {keep, remove})`): ids are issued by a counter and
`RevertRemove` deletes the reverted id. -/
structure SnapState where
  storage : BlockchainStorage
  env : Env
  active_state_snapshots : List (Nat × (Nat × Nat))
  time_base : Nat
  db_snapshot_ids : List Nat
  db_next_snapshot_id : Nat
  deriving Repr, DecidableEq

/-- `db.revert_state(id, RevertStateSnapshotAction::RevertRemove)`.  Modelled
from the spec (§4.1): reverting with `remove` succeeds iff the id is held and
deletes it; returns whether the snapshot existed. -/
def db_revert_state (st : SnapState) (id : Nat) : Bool × SnapState :=
  if st.db_snapshot_ids.contains id then
    (true, { st with db_snapshot_ids := st.db_snapshot_ids.filter (fun i => i != id) })
  else (false, st)

/-- `Backend::create_state_snapshot` (lines 932–939): issues an id via
`db.snapshot_state()` and remembers `(best_number, best_hash)` under it. -/
def create_state_snapshot (st : SnapState) : Nat × SnapState :=
  let num := st.storage.best_number
  let hash := st.storage.best_hash
  let id := st.db_next_snapshot_id
  (id,
   { st with
     db_next_snapshot_id := id + 1
     db_snapshot_ids := id :: st.db_snapshot_ids
     active_state_snapshots := insertA st.active_state_snapshots id (num, hash) })

/-- One iteration of the unwind loop of `revert_state_snapshot` (lines
950–959) at height `n`: remove the number-index entry, then the block, then
its transaction-index entries. -/
def revert_unwind_step (s : BlockchainStorage) (n : Nat) : BlockchainStorage :=
  match lookupA s.hashes n with
  | none => s
  | some hash =>
    match lookupA s.blocks hash with
    | none => { s with hashes := removeA s.hashes n }
    | some block =>
      { s with
        hashes := removeA s.hashes n
        blocks := removeA s.blocks hash
        transactions := block.transactions.foldl removeA s.transactions }

/-- The unwind loop of `revert_state_snapshot`:
`for n in ((num + 1)..=current_height).rev()`. -/
def revert_unwind (s : BlockchainStorage) (num current_height : Nat) :
    BlockchainStorage :=
  ((List.range' (num + 1) (current_height - num)).reverse).foldl revert_unwind_step s

/-- `Backend::revert_state_snapshot` (lines 942–986): remove the snapshot
record; when it existed, unwind the storage above the remembered height,
restore `best_number`/`best_hash`, fail with `BlockNotFound` if the restored
head block cannot be resolved (`block_by_hash`, local storage — the claims
settled here do not run in fork mode), reset time to its timestamp and rebuild
the block env from its header (keeping beneficiary and basefee, remaining
fields defaulted); finally revert the db snapshot with `RevertRemove` and
return its boolean result. -/
def revert_state_snapshot (st : SnapState) (id : Nat) :
    Except BlockchainError (Bool × SnapState) :=
  match lookupA st.active_state_snapshots id with
  | none =>
    let st := { st with
      active_state_snapshots := removeA st.active_state_snapshots id }
    Except.ok (db_revert_state st id)
  | some (num, hash) =>
    let st := { st with
      active_state_snapshots := removeA st.active_state_snapshots id }
    let current_height := st.storage.best_number
    let s := revert_unwind st.storage num current_height
    let s := { s with best_number := num, best_hash := hash }
    match lookupA s.blocks hash with
    | none => Except.error BlockchainError.BlockNotFound
    | some block =>
      let st := { st with
        storage := s
        time_base := block.header.timestamp
        env := { st.env with block_env :=
          { number := num
            timestamp := block.header.timestamp
            difficulty := block.header.difficulty
            prevrandao := some block.header.mix_hash
            gas_limit := block.header.gas_limit
            beneficiary := st.env.block_env.beneficiary
            basefee := st.env.block_env.basefee
            blob_excess_gas_and_price := none } } }
      Except.ok (db_revert_state st id)

/-- `Backend::list_state_snapshots` (lines 988–990): the map of active
snapshot records. -/
def list_state_snapshots (st : SnapState) : List (Nat × (Nat × Nat)) :=
  st.active_state_snapshots

/-- A fresh snapshot-capable backend state over the example genesis chain. -/
def exSnapState : SnapState :=
  { storage := exStorage, env := exEnv, active_state_snapshots := []
    time_base := 0, db_snapshot_ids := [], db_next_snapshot_id := 0 }

/-- The example state after two `create_state_snapshot` calls (ids 0 and 1). -/
def exSnapState2 : SnapState :=
  (create_state_snapshot (create_state_snapshot exSnapState).2).2

/-- The example state after additionally reverting snapshot 0. -/
def exRevertedSnapState : SnapState :=
  match revert_state_snapshot exSnapState2 0 with
  | Except.ok p => p.2
  | Except.error _ => exSnapState2

/-- A block-1 header on top of the example genesis. -/
def exHeader1 : Header :=
  { number := 1, parent_hash := hash_slow exGenesisHeader, timestamp := 10
    gas_limit := 30000000, gas_used := 0, beneficiary := 0, difficulty := 0
    mix_hash := 3, base_fee_per_gas := some 875000000, excess_blob_gas := none
    blob_gas_used := none }

/-- Block 1, containing the transaction with hash 55. -/
def exBlock1 : Blk := { header := exHeader1, transactions := [55] }

/-- Storage holding genesis plus block 1. -/
def exStorage2 : BlockchainStorage :=
  { blocks := insertA exStorage.blocks (hash_slow exHeader1) exBlock1
    hashes := insertA exStorage.hashes 1 (hash_slow exHeader1)
    transactions := [(55, { transaction_hash := 55
                            block_hash := hash_slow exHeader1, block_number := 1 })]
    best_hash := hash_slow exHeader1
    best_number := 1
    total_difficulty := 0 }

/-- A snapshot-capable state at height 1 holding a snapshot record taken at
height 0 (id 0, remembering the genesis head). -/
def exSnapStateTall : SnapState :=
  { storage := exStorage2, env := exEnv
    active_state_snapshots := [(0, (0, hash_slow exGenesisHeader))]
    time_base := 0, db_snapshot_ids := [0], db_next_snapshot_id := 1 }

/-! ## State dump/load (`dump_state` / `load_state` / `load_state_bytes`) -/

/-- An account entry of the state dump (spec §6: `accounts: {addr → {balance,
nonce, code?, storage}}`); the code bytes are opaque and abstracted as a
`Nat`. -/
structure SerAccount where
  balance : Nat
  nonce : Nat
  code : Nat
  storage : List (Nat × Nat)
  deriving Repr, DecidableEq

/-- `db::SerializableState` (spec §6 State dump format): block env, best block
number, blocks, mined transactions, the account map, and optional historical
states (per-block state snapshots, abstracted as opaque `Nat` payloads keyed
by block hash). -/
structure SerializableState where
  block : Option BlockEnv
  best_block_number : Option Nat
  blocks : List Blk
  transactions : List MinedTx
  accounts : List (Nat × SerAccount)
  historical_states : Option (List (Nat × Nat))
  deriving Repr, DecidableEq

/-- The backend state `dump_state`/`load_state` touch: blockchain storage,
env, fee manager, the `StateDatabase` account map, the historical states, and
the fork head `(fork_block_number, fork_block_hash)` when forked. -/
structure LoadState where
  storage : BlockchainStorage
  env : Env
  fees_base_fee : Nat
  fees_blob : Option BlobExcessGasAndPrice
  accounts : List (Nat × SerAccount)
  historical : List (Nat × Nat)
  fork : Option (Nat × Nat)
  deriving Repr, DecidableEq

/-- Modelled from the spec (§4.3 serialize/deserialize):
`BlockchainStorage::serialized_blocks` — the stored blocks, from
`storage.rs` outside this file. -/
def serialized_blocks (s : BlockchainStorage) : List Blk :=
  s.blocks.map (fun p => p.2)

/-- Modelled from the spec (§4.3): `serialized_transactions` — the stored
mined transactions. -/
def serialized_transactions (s : BlockchainStorage) : List MinedTx :=
  s.transactions.map (fun p => p.2)

/-- Modelled from the spec (§4.3): `BlockchainStorage::load_blocks` inserts
each block into both indexes, keyed by its hash and its number. -/
def load_blocks (s : BlockchainStorage) (bs : List Blk) : BlockchainStorage :=
  bs.foldl (fun s b =>
    { s with
      blocks := insertA s.blocks (hash_slow b.header) b
      hashes := insertA s.hashes b.header.number (hash_slow b.header) }) s

/-- Modelled from the spec (§4.3): `BlockchainStorage::load_transactions`
inserts each mined transaction into the transaction index under its hash. -/
def load_transactions (s : BlockchainStorage) (ts : List MinedTx) :
    BlockchainStorage :=
  ts.foldl (fun s mt =>
    { s with transactions := insertA s.transactions mt.transaction_hash mt }) s

/-- `Backend::serialized_state` (lines 993–1018): assembles the serializable
state (the `db.dump_state` assembly itself is in `db.rs`, per the spec §6
format). -/
def serialized_state (st : LoadState) (preserve_historical_states : Bool) :
    SerializableState :=
  { block := some st.env.block_env
    best_block_number := some st.storage.best_number
    blocks := serialized_blocks st.storage
    transactions := serialized_transactions st.storage
    accounts := st.accounts
    historical_states :=
      if preserve_historical_states then some st.historical else none }

/-- The gzip/JSON framing of `dump_state`/`load_state_bytes`.  Modelled from
the spec (§6: the dump is "gzip(JSON) of ..." and "Deserialization
transparently accepts raw (ungzipped) JSON"): `flate2` and `serde_json` are
external and are modelled as faithful injective codecs of the serializable
state, the constructor recording whether the gzip header is present. -/
inductive DumpBytes where
  | gzipped (state : SerializableState)
  | raw (state : SerializableState)
  deriving Repr, DecidableEq

/-- `Backend::dump_state` (lines 1021–1031): gzip-framed JSON of the
serialized state. -/
def dump_state (st : LoadState) (preserve_historical_states : Bool) : DumpBytes :=
  DumpBytes.gzipped (serialized_state st preserve_historical_states)

/-- `max_by_key(|b| b.header.number)` over the saved blocks (line 1084);
Rust's `max_by_key` returns the last maximal element. -/
def max_by_number (bs : List Blk) : Option Blk :=
  bs.foldl (fun acc b =>
    match acc with
    | none => some b
    | some m => if m.header.number ≤ b.header.number then some b else some m) none

/-- `Backend::load_state` (lines 1034–1120), as a pure transformation of
`LoadState`: load blocks then transactions into storage; if the saved state
carries a block env, adopt it and set the best head — under an active fork,
adopt the saved best number (resolving its hash in the loaded number index)
only when it exceeds the fork block number, otherwise pin to the fork head;
update the fee manager from the latest saved block; merge the account map
(`db.load_state`, which returns true for both db variants) and the historical
states.  On the missing-best-hash error path the source has already assigned
`best_number` before failing; the model returns the error without that
partial mutation, which no settled claim observes. -/
def load_state (st : LoadState) (state : SerializableState) :
    Except BlockchainError (Bool × LoadState) :=
  let storage0 := load_transactions (load_blocks st.storage state.blocks)
      state.transactions
  let env_storage : Except BlockchainError (Env × BlockchainStorage) :=
    match state.block with
    | none => Except.ok (st.env, storage0)
    | some block =>
      let env := { st.env with block_env := block }
      let best_number := state.best_block_number.getD block.number
      match st.fork with
      | some (number, hash) =>
        if number < best_number then
          match lookupA storage0.hashes best_number with
          | none => Except.error BlockchainError.RpcInternal
          | some best_hash =>
            Except.ok (env,
              { storage0 with best_number := best_number, best_hash := best_hash })
        else
          Except.ok (env,
            { storage0 with best_number := number, best_hash := hash })
      | none =>
        match lookupA storage0.hashes best_number with
        | none => Except.error BlockchainError.RpcInternal
        | some best_hash =>
          Except.ok (env,
            { storage0 with best_number := best_number, best_hash := best_hash })
  match env_storage with
  | Except.error e => Except.error e
  | Except.ok (env, storage) =>
    let fees :=
      match max_by_number state.blocks with
      | none => (st.fees_base_fee, st.fees_blob)
      | some latest =>
        (get_next_block_base_fee_per_gas latest.header.gas_used
            latest.header.gas_limit (latest.header.base_fee_per_gas.getD 0),
         some { excess_blob_gas := get_next_block_blob_excess_gas
                  (latest.header.excess_blob_gas.getD 0)
                  (latest.header.blob_gas_used.getD 0)
                blob_gasprice := 0 })
    let accounts := insertAllA st.accounts state.accounts
    let historical :=
      match state.historical_states with
      | some hs => insertAllA st.historical hs
      | none => st.historical
    Except.ok (true,
      { storage := storage
        env := env
        fees_base_fee := fees.1
        fees_blob := fees.2
        accounts := accounts
        historical := historical
        fork := st.fork })

/-- `Backend::load_state_bytes` (lines 1123–1139): when the gzip header is
present, decompress and parse, otherwise parse the raw buffer; then
`load_state`. -/
def load_state_bytes (st : LoadState) (buf : DumpBytes) :
    Except BlockchainError (Bool × LoadState) :=
  match buf with
  | DumpBytes.gzipped state => load_state st state
  | DumpBytes.raw state => load_state st state

/-- A forked backend state (fork head at number 5, hash 99) over the
one-block example storage. -/
def exForkLoadState : LoadState :=
  { storage := exStorage, env := exEnv, fees_base_fee := 875000000
    fees_blob := none, accounts := [], historical := []
    fork := some (5, 99) }

/-- An unforked backend state over the two-block example storage, with one
account and one historical state entry. -/
def exDumpLoadState : LoadState :=
  { storage := exStorage2, env := exEnv, fees_base_fee := 875000000
    fees_blob := none
    accounts := [(7, { balance := 1000, nonce := 2, code := 0, storage := [(1, 5)] })]
    historical := [(hash_slow exGenesisHeader, 44)]
    fork := none }

/-- An empty backend target for state loading. -/
def exEmptyLoadState : LoadState :=
  { storage := { blocks := [], hashes := [], transactions := []
                 best_hash := 0, best_number := 0, total_difficulty := 0 }
    env := exEnv, fees_base_fee := 0, fees_blob := none
    accounts := [], historical := [], fork := none }

/-- A saved state at best height 1 over the example two-block chain. -/
def exSavedState : SerializableState :=
  { block := some exEnv.block_env
    best_block_number := some 1
    blocks := [exGenesisBlock, exBlock1]
    transactions := [{ transaction_hash := 55, block_hash := hash_slow exHeader1
                       block_number := 1 }]
    accounts := []
    historical_states := none }

/-! ## Mining runs (for the `transaction_block_keeper` retention claim) -/

/-- A sequence of `mine_block` calls from `st`, block `i + 1` mining the
`i`-th transaction list (`B256::random()` and the timestamps do not influence
the transaction indexes and are fixed at 0). -/
def mine_run (keeper : Option Nat) (st : MineState) (txss : List (List Nat)) :
    MineState :=
  txss.foldl (fun s txs => (do_mine_block keeper s 0 0 txs).2) st

/-- The transaction list mined into block `b` of a run: block 0 is the
(empty) genesis, block `b ≥ 1` mines the `(b-1)`-th list. -/
def run_block_txs (txss : List (List Nat)) (b : Nat) : List Nat :=
  if b = 0 then [] else txss.getD (b - 1) []

/-- Invariant of a mining run with `transaction_block_keeper = K` after `m`
blocks have been mined on top of a genesis: head bookkeeping, the block-index
size and key shape, every block number up to `m` resolvable through both
indexes (retaining its original transaction list while not yet purged), and
the transactions of every block at depth ≥ K+1 purged from the transaction
index. -/
def MineRunInv (K : Nat) (txss : List (List Nat)) (m : Nat) (st : MineState) :
    Prop :=
  st.env.block_env.number = m ∧
  st.storage.best_number = m ∧
  sizeA st.storage.blocks = m + 1 ∧
  (st.storage.blocks.map Prod.fst).Nodup ∧
  (∀ p ∈ st.storage.blocks, p.1 = hash_slow p.2.header ∧ p.2.header.number ≤ m) ∧
  (∀ n, n ≤ m → ∃ hb B, lookupA st.storage.hashes n = some hb ∧
    lookupA st.storage.blocks hb = some B ∧ B.header.number = n ∧
    (m < n + K → B.transactions = run_block_txs txss n)) ∧
  (∀ b, 1 ≤ b → b + K ≤ m → ∀ t ∈ run_block_txs txss b,
    lookupA st.storage.transactions t = none)

end Anvil

namespace Anvil

/-! ## Preservation lemmas for the mining pipeline -/

theorem insert_mined_txs_preserves (storage : BlockchainStorage) (txs : List Nat)
    (bh bn : Nat) :
    (insert_mined_txs storage txs bh bn).blocks = storage.blocks ∧
    (insert_mined_txs storage txs bh bn).hashes = storage.hashes ∧
    (insert_mined_txs storage txs bh bn).best_hash = storage.best_hash ∧
    (insert_mined_txs storage txs bh bn).best_number = storage.best_number := by
  induction txs generalizing storage with
  | nil => exact ⟨rfl, rfl, rfl, rfl⟩
  | cons t ts ih => exact ih _

theorem remove_block_transactions_by_number_best (s : BlockchainStorage) (n : Nat) :
    (remove_block_transactions_by_number s n).best_hash = s.best_hash ∧
    (remove_block_transactions_by_number s n).best_number = s.best_number ∧
    (remove_block_transactions_by_number s n).hashes = s.hashes := by
  simp only [remove_block_transactions_by_number]
  split
  · exact ⟨rfl, rfl, rfl⟩
  · split
    · exact ⟨rfl, rfl, rfl⟩
    · exact ⟨rfl, rfl, rfl⟩

/-- The retention purge keeps every stored block header. -/
theorem remove_block_transactions_by_number_blocks_header (s : BlockchainStorage)
    (n h : Nat) :
    (lookupA (remove_block_transactions_by_number s n).blocks h).map Blk.header
      = (lookupA s.blocks h).map Blk.header := by
  simp only [remove_block_transactions_by_number]
  split
  · rfl
  next h' heq =>
    split
    · rfl
    next b heqb =>
      rw [lookupA_insertA]
      by_cases hh : h = h'
      · subst hh
        rw [if_pos rfl, heqb]
        rfl
      · rw [if_neg hh]

theorem apply_tx_keeper_best (k : Option Nat) (s : BlockchainStorage) (bn : Nat) :
    (apply_tx_keeper k s bn).best_hash = s.best_hash ∧
    (apply_tx_keeper k s bn).best_number = s.best_number ∧
    (apply_tx_keeper k s bn).hashes = s.hashes := by
  unfold apply_tx_keeper
  split
  · split
    · exact remove_block_transactions_by_number_best _ _
    · exact ⟨rfl, rfl, rfl⟩
  · exact ⟨rfl, rfl, rfl⟩

theorem apply_tx_keeper_blocks_header (k : Option Nat) (s : BlockchainStorage)
    (bn h : Nat) :
    (lookupA (apply_tx_keeper k s bn).blocks h).map Blk.header
      = (lookupA s.blocks h).map Blk.header := by
  unfold apply_tx_keeper
  split
  · split
    · exact remove_block_transactions_by_number_blocks_header _ _ _
    · rfl
  · rfl

theorem mine_env_number (st : MineState) (rand ts : Nat)
    (hnum : st.env.block_env.number = st.storage.best_number)
    (hbound : st.storage.best_number + 1 < 2 ^ 64) :
    (mine_env st rand ts).block_env.number = st.storage.best_number + 1 := by
  have hpow : (2 : Nat) ^ 64 ≤ 2 ^ 256 := Nat.pow_le_pow_right (by norm_num) (by norm_num)
  have h64 : saturating_add64 st.storage.best_number 1 = st.storage.best_number + 1 := by
    unfold saturating_add64
    omega
  have h256 : saturating_add256 st.env.block_env.number 1 = st.storage.best_number + 1 := by
    unfold saturating_add256
    rw [hnum]
    omega
  by_cases hb : st.env.block_env.basefee = 0 <;>
    by_cases ha : is_arbitrum st.env.cfg_env.chain_id = true <;>
      simp [mine_env, hb, ha, h64, h256]

theorem mine_env_cfg (st : MineState) (rand ts : Nat) :
    (mine_env st rand ts).cfg_env
      = (if st.env.block_env.basefee = 0 then
          { st.env.cfg_env with disable_base_fee := true }
        else st.env.cfg_env) := by
  by_cases hb : st.env.block_env.basefee = 0 <;>
    by_cases ha : is_arbitrum st.env.cfg_env.chain_id = true <;>
      simp [mine_env, hb, ha]

/-! ## Claim theorems: C1, C7 -/

/-- C1: for every call to `mine_block`, the mined block's `parent_hash` equals
the storage's `best_hash` immediately before mining, the reported block number
equals the previous `best_number` plus one, and `best_number`/`best_hash` are
updated to the new block's number and hash in the same critical section (here:
the same pure storage update) that inserts the block into the block and hash
indexes.  Hypotheses: the env's block number agrees with the storage head (the
system invariant between mined blocks) and the `u64` block counter does not
saturate. -/
theorem do_mine_block_appends
    (keeper : Option Nat) (st : MineState) (rand ts : Nat) (pool : List Nat)
    (hnum : st.env.block_env.number = st.storage.best_number)
    (hbound : st.storage.best_number + 1 < 2 ^ 64) :
    (do_mine_block keeper st rand ts pool).1.block_number
        = st.storage.best_number + 1 ∧
    (do_mine_block keeper st rand ts pool).2.storage.best_number
        = st.storage.best_number + 1 ∧
    lookupA (do_mine_block keeper st rand ts pool).2.storage.hashes
        (st.storage.best_number + 1)
      = some (do_mine_block keeper st rand ts pool).2.storage.best_hash ∧
    ∃ B, lookupA (do_mine_block keeper st rand ts pool).2.storage.blocks
          (do_mine_block keeper st rand ts pool).2.storage.best_hash = some B ∧
        B.header.parent_hash = st.storage.best_hash ∧
        B.header.number = st.storage.best_number + 1 := by
  have h64 : saturating_add64 st.storage.best_number 1 = st.storage.best_number + 1 := by
    unfold saturating_add64
    omega
  have henvnum := mine_env_number st rand ts hnum hbound
  simp only [do_mine_block]
  refine ⟨h64, ?_, ?_, ?_⟩
  case _ =>
    rw [(apply_tx_keeper_best _ _ _).2.1, (insert_mined_txs_preserves _ _ _ _).2.2.2]
    exact h64
  case _ =>
    rw [(apply_tx_keeper_best _ _ _).2.2, (insert_mined_txs_preserves _ _ _ _).2.1,
      (apply_tx_keeper_best _ _ _).1, (insert_mined_txs_preserves _ _ _ _).2.2.1]
    show lookupA (insertA _ _ _) _ = _
    rw [← h64, lookupA_insertA_self]
    rfl
  case _ =>
    rw [(apply_tx_keeper_best _ _ _).1, (insert_mined_txs_preserves _ _ _ _).2.2.1]
    have hmap : (lookupA (apply_tx_keeper keeper
        (insert_mined_txs
          (commit_block st.storage (mine_env st rand ts)
            (saturating_add64 st.storage.best_number 1)
            (execute_transactions (mine_env st rand ts).block_env
              (mine_env st rand ts).cfg_env st.storage.best_hash pool)
            (hash_slow (execute_transactions (mine_env st rand ts).block_env
              (mine_env st rand ts).cfg_env st.storage.best_hash pool).header))
          (execute_transactions (mine_env st rand ts).block_env
            (mine_env st rand ts).cfg_env st.storage.best_hash pool).transactions
          (hash_slow (execute_transactions (mine_env st rand ts).block_env
            (mine_env st rand ts).cfg_env st.storage.best_hash pool).header)
          (saturating_add64 st.storage.best_number 1))
        (saturating_add64 st.storage.best_number 1)).blocks
        (hash_slow (execute_transactions (mine_env st rand ts).block_env
          (mine_env st rand ts).cfg_env st.storage.best_hash pool).header)).map Blk.header
        = some (execute_transactions (mine_env st rand ts).block_env
            (mine_env st rand ts).cfg_env st.storage.best_hash pool).header := by
      rw [apply_tx_keeper_blocks_header, (insert_mined_txs_preserves _ _ _ _).1]
      show (lookupA (insertA _ _ _) _).map Blk.header = _
      rw [lookupA_insertA_self]
      rfl
    rcases Option.map_eq_some'.mp hmap with ⟨B, hB, hBh⟩
    refine ⟨B, hB, ?_, ?_⟩
    · rw [hBh]
      rfl
    · rw [hBh]
      exact henvnum

/-- Closed witness for `do_mine_block_appends`. -/
theorem do_mine_block_appends_witness :
    (exMineState.env.block_env.number = exMineState.storage.best_number ∧
      exMineState.storage.best_number + 1 < 2 ^ 64) ∧
    ((do_mine_block (some 2) exMineState 5 100 [9]).1.block_number
        = exMineState.storage.best_number + 1 ∧
      (do_mine_block (some 2) exMineState 5 100 [9]).2.storage.best_number
        = exMineState.storage.best_number + 1 ∧
      lookupA (do_mine_block (some 2) exMineState 5 100 [9]).2.storage.hashes
          (exMineState.storage.best_number + 1)
        = some (do_mine_block (some 2) exMineState 5 100 [9]).2.storage.best_hash ∧
      ∃ B, lookupA (do_mine_block (some 2) exMineState 5 100 [9]).2.storage.blocks
            (do_mine_block (some 2) exMineState 5 100 [9]).2.storage.best_hash = some B ∧
          B.header.parent_hash = exMineState.storage.best_hash ∧
          B.header.number = exMineState.storage.best_number + 1) :=
  ⟨⟨rfl, by decide⟩,
    do_mine_block_appends (some 2) exMineState 5 100 [9] rfl (by decide)⟩

/-- C7: whenever `block_env.basefee` is zero, the base-fee check is disabled
both in mining (`do_mine_block` sets `disable_base_fee` in the environment it
hands to the executor, `mine_env`) and in read-only call execution
(`build_call_env` sets `disable_base_fee` in the produced call env). -/
theorem basefee_zero_disables_base_fee
    (st : MineState) (rand ts : Nat) (env : Env) (nonce : Option Nat)
    (block_env : BlockEnv)
    (hmine : st.env.block_env.basefee = 0) (hcall : block_env.basefee = 0) :
    (mine_env st rand ts).cfg_env.disable_base_fee = true ∧
    (build_call_env env nonce block_env).cfg_env.disable_base_fee = true := by
  constructor
  · rw [mine_env_cfg, if_pos hmine]
  · cases nonce <;> simp [build_call_env, hcall]

/-- Closed witness for `basefee_zero_disables_base_fee`. -/
theorem basefee_zero_disables_base_fee_witness :
    (exMineStateZeroBasefee.env.block_env.basefee = 0 ∧
      ({ exEnv.block_env with basefee := 0 } : BlockEnv).basefee = 0) ∧
    ((mine_env exMineStateZeroBasefee 5 100).cfg_env.disable_base_fee = true ∧
      (build_call_env exEnv none
        { exEnv.block_env with basefee := 0 }).cfg_env.disable_base_fee = true) :=
  ⟨⟨rfl, rfl⟩,
    basefee_zero_disables_base_fee exMineStateZeroBasefee 5 100 exEnv none
      { exEnv.block_env with basefee := 0 } rfl rfl⟩

/-! ## Claim theorems: C5, C6 -/

/-- C5 counterexample: a legacy transaction carrying an explicit chain id (2)
that differs from the environment's chain id (31337) on a post-SpuriousDragon
fork is NOT rejected — validation accepts it, refuting the claim's
"InvalidChainId for every other such transaction". -/
theorem validate_chain_id_counterexample :
    exLegacyMismatchTx.chain_id = some 2 ∧
    exEnv.cfg_env.chain_id ≠ 2 ∧
    validate_pool_transaction_for exLegacyMismatchTx exAccount exEnv false
      = Except.ok () := by
  decide

/-- C5 amended: when the carried chain id differs from the environment's chain
id, a legacy transaction lacking an explicit chain-id field on a fork at or
after SpuriousDragon is rejected with `IncompatibleEIP155`, every non-legacy
such transaction is rejected with `InvalidChainId`, and a legacy transaction
not meeting the IncompatibleEIP155 condition is not rejected on chain-id
grounds (validation falls through to the remaining checks). -/
theorem validate_chain_id_amended (tx : PendingTx) (account : AccountInfo)
    (env : Env) (skip_blob : Bool) (cid : Nat)
    (hcid : tx.chain_id = some cid) (hne : env.cfg_env.chain_id ≠ cid) :
    (tx.is_legacy = true → SPURIOUS_DRAGON ≤ env.cfg_env.spec →
      tx.legacy_chain_id = none →
      validate_pool_transaction_for tx account env skip_blob
        = Except.error InvalidTransactionError.IncompatibleEIP155) ∧
    (tx.is_legacy = false →
      validate_pool_transaction_for tx account env skip_blob
        = Except.error InvalidTransactionError.InvalidChainId) ∧
    (tx.is_legacy = true →
      ¬(SPURIOUS_DRAGON ≤ env.cfg_env.spec ∧ tx.legacy_chain_id = none) →
      validate_pool_transaction_for tx account env skip_blob
        = validate_pool_transaction_checks tx account env skip_blob) := by
  unfold validate_pool_transaction_for
  rw [hcid]
  refine ⟨?_, ?_, ?_⟩
  · intro hleg hsd hnone
    simp [hne, hleg, hsd, hnone]
  · intro hleg
    simp [hne, hleg]
  · intro hleg hcond
    simp [hne, hleg, hcond]

/-- Closed witness for `validate_chain_id_amended` (non-legacy branch). -/
theorem validate_chain_id_amended_witness :
    (exNonLegacyMismatchTx.chain_id = some 2 ∧ exEnv.cfg_env.chain_id ≠ 2) ∧
    ((exNonLegacyMismatchTx.is_legacy = true →
        SPURIOUS_DRAGON ≤ exEnv.cfg_env.spec →
        exNonLegacyMismatchTx.legacy_chain_id = none →
        validate_pool_transaction_for exNonLegacyMismatchTx exAccount exEnv false
          = Except.error InvalidTransactionError.IncompatibleEIP155) ∧
      (exNonLegacyMismatchTx.is_legacy = false →
        validate_pool_transaction_for exNonLegacyMismatchTx exAccount exEnv false
          = Except.error InvalidTransactionError.InvalidChainId) ∧
      (exNonLegacyMismatchTx.is_legacy = true →
        ¬(SPURIOUS_DRAGON ≤ exEnv.cfg_env.spec ∧
            exNonLegacyMismatchTx.legacy_chain_id = none) →
        validate_pool_transaction_for exNonLegacyMismatchTx exAccount exEnv false
          = validate_pool_transaction_checks exNonLegacyMismatchTx exAccount exEnv
              false)) :=
  ⟨⟨rfl, by decide⟩,
    validate_chain_id_amended exNonLegacyMismatchTx exAccount exEnv false 2 rfl
      (by decide)⟩

/-- C6: `validate_pool_transaction_for` accepts a deposit transaction of
sufficient gas limit without checking its nonce, the base-fee floor, or
gas-cost coverage — `tx.nonce`, `tx.gas_price` and `tx.max_cost` are left
unconstrained by the hypotheses — exactly when `value ≤ balance + mint`, and
rejects it with `InsufficientFunds` exactly when `value > balance + mint`.
(Deposit transactions carry no EIP-155 chain id, no 1559 fee essentials and
no blobs: `hcid`, `htip`, `h4844`; `hov` rules out `U256` overflow of
`balance + mint`.) -/
theorem validate_deposit_funds (tx : PendingTx) (account : AccountInfo)
    (env : Env) (skip_blob : Bool)
    (hdep : tx.is_deposit = true)
    (hcid : tx.chain_id = none)
    (h4844 : tx.is_eip4844 = false)
    (htip : tx.max_priority_fee_per_gas = none)
    (hgas : MIN_TRANSACTION_GAS ≤ tx.gas_limit)
    (hgash : tx.gas_limit ≤ env.block_env.gas_limit)
    (hov : account.balance + tx.mint < 2 ^ 256) :
    (validate_pool_transaction_for tx account env skip_blob = Except.ok ()
      ↔ tx.value ≤ account.balance + tx.mint) ∧
    (validate_pool_transaction_for tx account env skip_blob
        = Except.error InvalidTransactionError.InsufficientFunds
      ↔ account.balance + tx.mint < tx.value) := by
  have h1 : ¬tx.gas_limit < MIN_TRANSACTION_GAS := Nat.not_lt.mpr hgas
  have h2 : ¬env.block_env.gas_limit < tx.gas_limit := Nat.not_lt.mpr hgash
  have htipf : tip_above_fee_cap tx = false := by
    unfold tip_above_fee_cap
    rw [htip]
  have hmod : (account.balance + tx.mint) % 2 ^ 256 = account.balance + tx.mint :=
    Nat.mod_eq_of_lt hov
  simp only [validate_pool_transaction_for, hcid, validate_pool_transaction_checks,
    h1, h2, hdep, h4844, htipf, hmod, if_false, Bool.true_eq_false, and_false,
    false_and, and_true, Bool.false_eq_true, if_true, ite_false, ite_true]
  by_cases hvc : account.balance + tx.mint < tx.value
  · simp only [if_pos hvc]
    constructor
    · constructor
      · intro h
        cases h
      · intro h
        omega
    · constructor
      · intro _
        exact hvc
      · intro _
        trivial
  · simp only [if_neg hvc]
    constructor
    · constructor
      · intro _
        omega
      · intro _
        trivial
    · constructor
      · intro h
        cases h
      · intro h
        omega

/-- Closed witness for `validate_deposit_funds`: balance 3 + mint 5 covers
value 7, so the deposit transaction is accepted despite nonce 3 on a
nonce-0 account and a zero gas price. -/
theorem validate_deposit_funds_witness :
    (exDepositTx.is_deposit = true ∧
      exDepositTx.chain_id = none ∧
      exDepositTx.is_eip4844 = false ∧
      exDepositTx.max_priority_fee_per_gas = none ∧
      MIN_TRANSACTION_GAS ≤ exDepositTx.gas_limit ∧
      exDepositTx.gas_limit ≤ exEnv.block_env.gas_limit ∧
      exPoorAccount.balance + exDepositTx.mint < 2 ^ 256) ∧
    ((validate_pool_transaction_for exDepositTx exPoorAccount exEnv false
        = Except.ok ()
      ↔ exDepositTx.value ≤ exPoorAccount.balance + exDepositTx.mint) ∧
      (validate_pool_transaction_for exDepositTx exPoorAccount exEnv false
          = Except.error InvalidTransactionError.InsufficientFunds
        ↔ exPoorAccount.balance + exDepositTx.mint < exDepositTx.value)) :=
  ⟨⟨rfl, rfl, rfl, rfl, by decide, by decide, by decide⟩,
    validate_deposit_funds exDepositTx exPoorAccount exEnv false rfl rfl rfl rfl
      (by decide) (by decide) (by decide)⟩

/-! ## Claim theorems: C3, C10 -/

/-- C3 counterexample: after creating snapshots 0 and 1 (in that order) and
reverting snapshot 0, snapshot 1 — created after 0 — is still listed among the
active snapshot records, refuting the claimed stack semantics. -/
theorem revert_snapshot_records_counterexample :
    (create_state_snapshot exSnapState).1 = 0 ∧
    (create_state_snapshot (create_state_snapshot exSnapState).2).1 = 1 ∧
    (revert_state_snapshot exSnapState2 0).map
        (fun p => (p.1, lookupA (list_state_snapshots p.2) 1))
      = Except.ok (true, some (0, hash_slow exGenesisHeader)) := by
  decide

/-- C3 amended: a successful `revert_state_snapshot(k)` removes exactly `k`
from the active snapshot records: `k`'s record is gone, and every other
record — in particular every record created after `k` — remains unchanged in
`list_state_snapshots` (so higher-id snapshots stay revertable). -/
theorem revert_snapshot_removes_only_id (st : SnapState) (id : Nat) (b : Bool)
    (st' : SnapState)
    (h : revert_state_snapshot st id = Except.ok (b, st')) :
    lookupA (list_state_snapshots st') id = none ∧
    ∀ id2, id2 ≠ id →
      lookupA (list_state_snapshots st') id2
        = lookupA (list_state_snapshots st) id2 := by
  have hdb : ∀ s : SnapState, (db_revert_state s id).2.active_state_snapshots
      = s.active_state_snapshots := by
    intro s
    unfold db_revert_state
    split <;> rfl
  have hsnd : ∀ p : Bool × SnapState, p = (b, st') →
      st'.active_state_snapshots = p.2.active_state_snapshots := by
    intro p hp
    rw [hp]
  have hactive : st'.active_state_snapshots
      = removeA st.active_state_snapshots id := by
    simp only [revert_state_snapshot] at h
    split at h
    · injection h with h1
      rw [hsnd _ h1, hdb]
    · split at h
      · exact absurd h (by simp)
      · injection h with h1
        rw [hsnd _ h1, hdb]
  constructor
  · show lookupA st'.active_state_snapshots id = none
    rw [hactive, lookupA_removeA, if_pos rfl]
  · intro id2 hid
    show lookupA st'.active_state_snapshots id2
        = lookupA st.active_state_snapshots id2
    rw [hactive, lookupA_removeA, if_neg hid]

/-- Closed witness for `revert_snapshot_removes_only_id`. -/
theorem revert_snapshot_removes_only_id_witness :
    revert_state_snapshot exSnapState2 0 = Except.ok (true, exRevertedSnapState) ∧
    (lookupA (list_state_snapshots exRevertedSnapState) 0 = none ∧
      ∀ id2, id2 ≠ 0 →
        lookupA (list_state_snapshots exRevertedSnapState) id2
          = lookupA (list_state_snapshots exSnapState2) id2) :=
  ⟨by decide,
    revert_snapshot_removes_only_id exSnapState2 0 true exRevertedSnapState
      (by decide)⟩

/-- C10 counterexample: with a single pool transaction from sender 1 at the
maximal u64 nonce, `get_nonce` saturates and does not return highest + 1. -/
theorem get_nonce_counterexample :
    get_nonce (fun _ _ => 0) 0 1
        (BlockRequest.Pending [{ sender := 1, nonce := 2 ^ 64 - 1 }])
      ≠ (2 ^ 64 - 1) + 1 := by
  decide

/-- C10 amended: for a Pending request whose pool holds a transaction from
`address`, `get_nonce` returns the highest such nonce plus one saturating at
the u64 maximum, without reading the database (the result is independent of
`state_nonce`); when no pool transaction is from `address`, it returns the
account nonce from the state at the current best block. -/
theorem get_nonce_pending (state_nonce : Nat → Nat → Nat)
    (best_number address : Nat) (pool : List PoolTx) (h : Nat)
    (hmax : ((pool.filter (fun tx => tx.sender == address)).map
        (fun tx => tx.nonce)).max? = some h) :
    (∀ other_state_nonce : Nat → Nat → Nat,
      get_nonce other_state_nonce best_number address (BlockRequest.Pending pool)
        = min (h + 1) (2 ^ 64 - 1)) ∧
    (∀ pool2 : List PoolTx, (∀ tx ∈ pool2, tx.sender ≠ address) →
      get_nonce state_nonce best_number address (BlockRequest.Pending pool2)
        = state_nonce best_number address) := by
  constructor
  · intro osn
    simp only [get_nonce, get_pool_transactions_nonce, hmax, saturating_add64]
  · intro pool2 hp
    have hfil : pool2.filter (fun tx => tx.sender == address) = [] := by
      rw [List.filter_eq_nil_iff]
      intro a ha
      simp [hp a ha]
    simp only [get_nonce, get_pool_transactions_nonce, hfil, List.map_nil,
      List.max?_nil]

/-- Closed witness for `get_nonce_pending`. -/
theorem get_nonce_pending_witness :
    ((([⟨1, 5⟩, ⟨2, 9⟩, ⟨1, 7⟩] : List PoolTx).filter
        (fun tx => tx.sender == 1)).map (fun tx => tx.nonce)).max? = some 7 ∧
    ((∀ other_state_nonce : Nat → Nat → Nat,
        get_nonce other_state_nonce 0 1
            (BlockRequest.Pending [⟨1, 5⟩, ⟨2, 9⟩, ⟨1, 7⟩])
          = min (7 + 1) (2 ^ 64 - 1)) ∧
      (∀ pool2 : List PoolTx, (∀ tx ∈ pool2, tx.sender ≠ 1) →
        get_nonce (fun _ _ => 42) 0 1 (BlockRequest.Pending pool2)
          = (fun _ _ => 42 : Nat → Nat → Nat) 0 1)) :=
  ⟨by decide,
    get_nonce_pending (fun _ _ => 42) 0 1 [⟨1, 5⟩, ⟨2, 9⟩, ⟨1, 7⟩] 7 (by decide)⟩

/-! ## Unwind-loop lemmas (towards C2) -/

theorem foldl_removeA_none {α : Type} (l : List Nat) (m : List (Nat × α)) (t : Nat)
    (h : lookupA m t = none) : lookupA (l.foldl removeA m) t = none := by
  induction l generalizing m with
  | nil => exact h
  | cons a l ih =>
    show lookupA (l.foldl removeA (removeA m a)) t = none
    apply ih
    rw [lookupA_removeA]
    by_cases ht : t = a
    · rw [if_pos ht]
    · rw [if_neg ht]
      exact h

theorem foldl_removeA_mem {α : Type} (l : List Nat) (m : List (Nat × α)) (t : Nat)
    (h : t ∈ l) : lookupA (l.foldl removeA m) t = none := by
  induction l generalizing m with
  | nil => simp at h
  | cons a l ih =>
    show lookupA (l.foldl removeA (removeA m a)) t = none
    rcases List.mem_cons.mp h with heq | hmem
    · subst heq
      apply foldl_removeA_none
      rw [lookupA_removeA, if_pos rfl]
    · exact ih _ hmem

theorem nodup_values_eq {α : Type} [DecidableEq α] {l : List (Nat × α)}
    (hnd : (l.map Prod.snd).Nodup) {n1 n2 : Nat} {v : α}
    (h1 : (n1, v) ∈ l) (h2 : (n2, v) ∈ l) : n1 = n2 := by
  induction l with
  | nil => simp at h1
  | cons p rest ih =>
    simp only [List.map_cons, List.nodup_cons] at hnd
    rcases List.mem_cons.mp h1 with he1 | ht1 <;>
      rcases List.mem_cons.mp h2 with he2 | ht2
    · exact congrArg Prod.fst (he1.trans he2.symm)
    · exfalso
      apply hnd.1
      rw [← he1]
      exact List.mem_map.mpr ⟨(n2, v), ht2, rfl⟩
    · exfalso
      apply hnd.1
      rw [← he2]
      exact List.mem_map.mpr ⟨(n1, v), ht1, rfl⟩
    · exact ih hnd.2 ht1 ht2

theorem revert_unwind_step_hashes (s : BlockchainStorage) (n m : Nat) :
    lookupA (revert_unwind_step s n).hashes m
      = if m = n then none else lookupA s.hashes m := by
  unfold revert_unwind_step
  split
  next heq =>
    by_cases hm : m = n
    · subst hm
      rw [if_pos rfl, heq]
    · rw [if_neg hm]
  next hsh heq =>
    split
    · exact lookupA_removeA _ _ _
    · exact lookupA_removeA _ _ _

theorem revert_unwind_step_blocks_none (s : BlockchainStorage) (n bh : Nat)
    (h : lookupA s.blocks bh = none) :
    lookupA (revert_unwind_step s n).blocks bh = none := by
  unfold revert_unwind_step
  split
  · exact h
  · split
    · exact h
    · show lookupA (removeA s.blocks _) bh = none
      simp [lookupA_removeA, h]

theorem revert_unwind_step_tx_none (s : BlockchainStorage) (n t : Nat)
    (h : lookupA s.transactions t = none) :
    lookupA (revert_unwind_step s n).transactions t = none := by
  unfold revert_unwind_step
  split
  · exact h
  · split
    · exact h
    · exact foldl_removeA_none _ _ _ h

theorem revert_unwind_step_removes (s : BlockchainStorage) (n bh : Nat) (B : Blk)
    (hh : lookupA s.hashes n = some bh) (hb : lookupA s.blocks bh = some B) :
    lookupA (revert_unwind_step s n).blocks bh = none ∧
    ∀ t ∈ B.transactions, lookupA (revert_unwind_step s n).transactions t = none := by
  unfold revert_unwind_step
  split
  next heq =>
    rw [hh] at heq
    cases heq
  next hash heq =>
    rw [hh] at heq
    injection heq with heq2
    subst heq2
    split
    next heqb =>
      rw [hb] at heqb
      cases heqb
    next block heqb =>
      rw [hb] at heqb
      injection heqb with heqb2
      subst heqb2
      constructor
      · show lookupA (removeA s.blocks bh) bh = none
        simp [lookupA_removeA]
      · intro t ht
        exact foldl_removeA_mem _ _ _ ht

theorem revert_unwind_step_blocks_pres (s : BlockchainStorage) (n bh : Nat)
    (hne : lookupA s.hashes n ≠ some bh) :
    lookupA (revert_unwind_step s n).blocks bh = lookupA s.blocks bh := by
  unfold revert_unwind_step
  split
  · rfl
  next hash heq =>
    split
    · rfl
    next block heqb =>
      show lookupA (removeA s.blocks hash) bh = _
      rw [lookupA_removeA,
        if_neg (fun hbh : bh = hash => hne (by rw [hbh]; exact heq))]

theorem revert_unwind_step_blocks (s : BlockchainStorage) (n bh : Nat) (B : Blk)
    (hb : lookupA s.blocks bh = some B) :
    lookupA (revert_unwind_step s n).blocks bh = some B ∨
    (lookupA (revert_unwind_step s n).blocks bh = none ∧
      ∀ t ∈ B.transactions, lookupA (revert_unwind_step s n).transactions t = none) := by
  by_cases hh : lookupA s.hashes n = some bh
  · exact Or.inr (revert_unwind_step_removes s n bh B hh hb)
  · exact Or.inl (by rw [revert_unwind_step_blocks_pres s n bh hh, hb])

theorem revert_unwind_fold_hashes (ns : List Nat) (s : BlockchainStorage) (m : Nat) :
    lookupA ((ns.foldl revert_unwind_step s).hashes) m
      = if m ∈ ns then none else lookupA s.hashes m := by
  induction ns generalizing s with
  | nil => simp
  | cons n ns ih =>
    show lookupA ((ns.foldl revert_unwind_step (revert_unwind_step s n)).hashes) m = _
    rw [ih]
    by_cases hm : m ∈ ns
    · simp [hm]
    · rw [if_neg hm, revert_unwind_step_hashes]
      by_cases hmn : m = n
      · simp [hmn]
      · simp [List.mem_cons, hmn, hm]

theorem revert_unwind_fold_blocks_none (ns : List Nat) (s : BlockchainStorage)
    (bh : Nat) (h : lookupA s.blocks bh = none) :
    lookupA ((ns.foldl revert_unwind_step s).blocks) bh = none := by
  induction ns generalizing s with
  | nil => exact h
  | cons n ns ih => exact ih _ (revert_unwind_step_blocks_none s n bh h)

theorem revert_unwind_fold_tx_none (ns : List Nat) (s : BlockchainStorage)
    (t : Nat) (h : lookupA s.transactions t = none) :
    lookupA ((ns.foldl revert_unwind_step s).transactions) t = none := by
  induction ns generalizing s with
  | nil => exact h
  | cons n ns ih => exact ih _ (revert_unwind_step_tx_none s n t h)

theorem revert_unwind_fold_removes (ns : List Nat) (s : BlockchainStorage)
    (n bh : Nat) (B : Blk) (hn : n ∈ ns)
    (hh : lookupA s.hashes n = some bh) (hb : lookupA s.blocks bh = some B) :
    lookupA ((ns.foldl revert_unwind_step s).blocks) bh = none ∧
    ∀ t ∈ B.transactions,
      lookupA ((ns.foldl revert_unwind_step s).transactions) t = none := by
  induction ns generalizing s with
  | nil => simp at hn
  | cons n0 ns ih =>
    show lookupA ((ns.foldl revert_unwind_step (revert_unwind_step s n0)).blocks) bh
        = none ∧ _
    by_cases hnn : n = n0
    · subst hnn
      have hrem := revert_unwind_step_removes s n bh B hh hb
      constructor
      · exact revert_unwind_fold_blocks_none ns _ bh hrem.1
      · intro t ht
        exact revert_unwind_fold_tx_none ns _ t (hrem.2 t ht)
    · have hn' : n ∈ ns := by
        rcases List.mem_cons.mp hn with h | h
        · exact absurd h hnn
        · exact h
      have hh' : lookupA (revert_unwind_step s n0).hashes n = some bh := by
        rw [revert_unwind_step_hashes, if_neg hnn]
        exact hh
      rcases revert_unwind_step_blocks s n0 bh B hb with hpres | hgone
      · exact ih _ hn' hh' hpres
      · constructor
        · exact revert_unwind_fold_blocks_none ns _ bh hgone.1
        · intro t ht
          exact revert_unwind_fold_tx_none ns _ t (hgone.2 t ht)

theorem revert_unwind_fold_blocks_pres (ns : List Nat) (s : BlockchainStorage)
    (bh : Nat) (hne : ∀ n ∈ ns, lookupA s.hashes n ≠ some bh) :
    lookupA ((ns.foldl revert_unwind_step s).blocks) bh = lookupA s.blocks bh := by
  induction ns generalizing s with
  | nil => rfl
  | cons n0 ns ih =>
    show lookupA ((ns.foldl revert_unwind_step (revert_unwind_step s n0)).blocks) bh = _
    have hne2 : ∀ n ∈ ns, lookupA (revert_unwind_step s n0).hashes n ≠ some bh := by
      intro n hn
      rw [revert_unwind_step_hashes]
      by_cases hn0 : n = n0
      · simp [hn0]
      · rw [if_neg hn0]
        exact hne n (List.mem_cons_of_mem _ hn)
    rw [ih _ hne2,
      revert_unwind_step_blocks_pres s n0 bh (hne n0 (List.mem_cons_self _ _))]

/-! ## Claim theorem: C2 -/

/-- C2: a snapshot created by `create_state_snapshot` while the chain head is
`(h, H)` records exactly `(h, H)` under its id; `revert_state_snapshot` on any
later state whose record map holds `(h, H)` under `id` removes from blockchain
storage every block with number strictly greater than `h` together with the
transaction-index entries of those blocks, and restores `best_number = h` and
`best_hash = H`.  Well-formedness at revert time: number-index entries do not
exceed the best height (`hidx`), every stored block is indexed under its own
number (`hblocks`), the number index is injective (`hinj`), and the remembered
head block is stored with number ≤ h (`hHblk`, `hHnum`). -/
theorem create_then_revert_state_snapshot
    (st0 st : SnapState) (id h H : Nat) (BH : Blk)
    (hrec : lookupA st.active_state_snapshots id = some (h, H))
    (hidx : ∀ p ∈ st.storage.hashes, p.1 ≤ st.storage.best_number)
    (hblocks : ∀ p ∈ st.storage.blocks,
      lookupA st.storage.hashes p.2.header.number = some p.1)
    (hinj : (st.storage.hashes.map Prod.snd).Nodup)
    (hHblk : lookupA st.storage.blocks H = some BH)
    (hHnum : BH.header.number ≤ h) :
    lookupA (create_state_snapshot st0).2.active_state_snapshots
        (create_state_snapshot st0).1
      = some (st0.storage.best_number, st0.storage.best_hash) ∧
    ∃ b st', revert_state_snapshot st id = Except.ok (b, st') ∧
      st'.storage.best_number = h ∧
      st'.storage.best_hash = H ∧
      (∀ n, h < n → lookupA st'.storage.hashes n = none) ∧
      (∀ bh B, lookupA st.storage.blocks bh = some B → h < B.header.number →
        lookupA st'.storage.blocks bh = none ∧
        ∀ t ∈ B.transactions, lookupA st'.storage.transactions t = none) := by
  have hdbst : ∀ s : SnapState, (db_revert_state s id).2.storage = s.storage := by
    intro s
    unfold db_revert_state
    split <;> rfl
  constructor
  · exact lookupA_insertA_self _ _ _
  · have hmem : ∀ m,
        m ∈ (List.range' (h + 1) (st.storage.best_number - h)).reverse
          ↔ (h < m ∧ m ≤ st.storage.best_number) := by
      intro m
      rw [List.mem_reverse, List.mem_range'_1]
      omega
    have hne : ∀ n ∈ (List.range' (h + 1) (st.storage.best_number - h)).reverse,
        lookupA st.storage.hashes n ≠ some H := by
      intro n hn hcon
      have h1 := (hmem n).mp hn
      have h2 : lookupA st.storage.hashes BH.header.number = some H :=
        hblocks (H, BH) (lookupA_mem hHblk)
      have h3 := nodup_values_eq hinj (lookupA_mem hcon) (lookupA_mem h2)
      omega
    have hsurv :
        lookupA (revert_unwind st.storage h st.storage.best_number).blocks H
          = some BH := by
      rw [revert_unwind, revert_unwind_fold_blocks_pres _ _ _ hne]
      exact hHblk
    have hashesP : ∀ n, h < n →
        lookupA (revert_unwind st.storage h st.storage.best_number).hashes n
          = none := by
      intro n hn
      rw [revert_unwind, revert_unwind_fold_hashes]
      by_cases hnb : n ≤ st.storage.best_number
      · rw [if_pos ((hmem n).mpr ⟨hn, hnb⟩)]
      · rw [if_neg (fun hc => hnb ((hmem n).mp hc).2)]
        cases hl : lookupA st.storage.hashes n with
        | none => rfl
        | some hb => exact absurd (hidx (n, hb) (lookupA_mem hl)) hnb
    have blocksP : ∀ bh B, lookupA st.storage.blocks bh = some B →
        h < B.header.number →
        lookupA (revert_unwind st.storage h st.storage.best_number).blocks bh
          = none ∧
        ∀ t ∈ B.transactions,
          lookupA (revert_unwind st.storage h
              st.storage.best_number).transactions t = none := by
      intro bh B hB hnum
      have hh2 : lookupA st.storage.hashes B.header.number = some bh :=
        hblocks (bh, B) (lookupA_mem hB)
      have hbn : B.header.number ≤ st.storage.best_number :=
        hidx (B.header.number, bh) (lookupA_mem hh2)
      have hmemn :
          B.header.number
            ∈ (List.range' (h + 1) (st.storage.best_number - h)).reverse :=
        (hmem _).mpr ⟨hnum, hbn⟩
      exact revert_unwind_fold_removes _ st.storage B.header.number bh B hmemn
        hh2 hB
    simp only [revert_state_snapshot, hrec]
    rw [hsurv]
    simp only [db_revert_state]
    split
    · exact ⟨_, _, rfl, rfl, rfl, hashesP, blocksP⟩
    · exact ⟨_, _, rfl, rfl, rfl, hashesP, blocksP⟩

/-- Closed witness for `create_then_revert_state_snapshot`: reverting the
height-0 snapshot of the two-block example chain. -/
theorem create_then_revert_state_snapshot_witness :
    (lookupA exSnapStateTall.active_state_snapshots 0
        = some (0, hash_slow exGenesisHeader) ∧
      (∀ p ∈ exSnapStateTall.storage.hashes,
        p.1 ≤ exSnapStateTall.storage.best_number) ∧
      (∀ p ∈ exSnapStateTall.storage.blocks,
        lookupA exSnapStateTall.storage.hashes p.2.header.number = some p.1) ∧
      (exSnapStateTall.storage.hashes.map Prod.snd).Nodup ∧
      lookupA exSnapStateTall.storage.blocks (hash_slow exGenesisHeader)
        = some exGenesisBlock ∧
      exGenesisBlock.header.number ≤ 0) ∧
    (lookupA (create_state_snapshot exSnapState).2.active_state_snapshots
        (create_state_snapshot exSnapState).1
      = some (exSnapState.storage.best_number, exSnapState.storage.best_hash) ∧
    ∃ b st', revert_state_snapshot exSnapStateTall 0 = Except.ok (b, st') ∧
      st'.storage.best_number = 0 ∧
      st'.storage.best_hash = hash_slow exGenesisHeader ∧
      (∀ n, 0 < n → lookupA st'.storage.hashes n = none) ∧
      (∀ bh B, lookupA exSnapStateTall.storage.blocks bh = some B →
        0 < B.header.number →
        lookupA st'.storage.blocks bh = none ∧
        ∀ t ∈ B.transactions, lookupA st'.storage.transactions t = none)) :=
  ⟨⟨by decide, by decide, by decide, by decide, by decide, by decide⟩,
    create_then_revert_state_snapshot exSnapState exSnapStateTall 0 0
      (hash_slow exGenesisHeader) exGenesisBlock (by decide) (by decide)
      (by decide) (by decide) (by decide) (by decide)⟩

/-! ## Claim theorems: C9, C4 -/

/-- C9: when `load_state` runs while a fork is active and the saved state
carries a block env: if the saved best number exceeds the fork block number,
the storage head is adopted from the saved state (the hash resolved from the
loaded number index); otherwise it is pinned to the fork's block number and
block hash. -/
theorem load_state_fork_pins (st : LoadState) (state : SerializableState)
    (benv : BlockEnv) (fnum fhash : Nat)
    (hblock : state.block = some benv)
    (hfork : st.fork = some (fnum, fhash)) :
    (∀ bh, fnum < state.best_block_number.getD benv.number →
      lookupA (load_transactions (load_blocks st.storage state.blocks)
          state.transactions).hashes (state.best_block_number.getD benv.number)
        = some bh →
      ∃ st', load_state st state = Except.ok (true, st') ∧
        st'.storage.best_number = state.best_block_number.getD benv.number ∧
        st'.storage.best_hash = bh) ∧
    (¬fnum < state.best_block_number.getD benv.number →
      ∃ st', load_state st state = Except.ok (true, st') ∧
        st'.storage.best_number = fnum ∧
        st'.storage.best_hash = fhash) := by
  constructor
  · intro bh hlt hlook
    simp only [load_state, hblock, hfork, hlt, if_true, hlook]
    exact ⟨_, rfl, rfl, rfl⟩
  · intro hlt
    simp only [load_state, hblock, hfork, hlt, if_false]
    exact ⟨_, rfl, rfl, rfl⟩

/-- Closed witness for `load_state_fork_pins` (the pin-to-fork branch: saved
best 1, fork at 5). -/
theorem load_state_fork_pins_witness :
    (exSavedState.block = some exEnv.block_env ∧
      exForkLoadState.fork = some (5, 99)) ∧
    ((∀ bh, 5 < exSavedState.best_block_number.getD exEnv.block_env.number →
      lookupA (load_transactions (load_blocks exForkLoadState.storage
          exSavedState.blocks) exSavedState.transactions).hashes
          (exSavedState.best_block_number.getD exEnv.block_env.number)
        = some bh →
      ∃ st', load_state exForkLoadState exSavedState = Except.ok (true, st') ∧
        st'.storage.best_number
          = exSavedState.best_block_number.getD exEnv.block_env.number ∧
        st'.storage.best_hash = bh) ∧
    (¬5 < exSavedState.best_block_number.getD exEnv.block_env.number →
      ∃ st', load_state exForkLoadState exSavedState = Except.ok (true, st') ∧
        st'.storage.best_number = 5 ∧
        st'.storage.best_hash = 99)) :=
  ⟨⟨rfl, rfl⟩,
    load_state_fork_pins exForkLoadState exSavedState exEnv.block_env 5 99 rfl rfl⟩

theorem map_id_of_mem {α : Type} (l : List α) (f : α → α) (h : ∀ x ∈ l, f x = x) :
    l.map f = l := by
  induction l with
  | nil => rfl
  | cons a l ih =>
    simp only [List.map_cons]
    rw [h a (List.mem_cons_self _ _), ih (fun x hx => h x (List.mem_cons_of_mem _ hx))]

theorem load_blocks_blocks (s : BlockchainStorage) (bs : List Blk) :
    (load_blocks s bs).blocks
      = insertAllA s.blocks (bs.map (fun b => (hash_slow b.header, b))) := by
  induction bs generalizing s with
  | nil => rfl
  | cons b bs ih =>
    show (load_blocks { s with
        blocks := insertA s.blocks (hash_slow b.header) b
        hashes := insertA s.hashes b.header.number (hash_slow b.header) } bs).blocks
      = insertAllA (insertA s.blocks (hash_slow b.header) b)
          (bs.map (fun b => (hash_slow b.header, b)))
    exact ih _

theorem load_blocks_hashes (s : BlockchainStorage) (bs : List Blk) :
    (load_blocks s bs).hashes
      = insertAllA s.hashes
          (bs.map (fun b => (b.header.number, hash_slow b.header))) := by
  induction bs generalizing s with
  | nil => rfl
  | cons b bs ih =>
    show (load_blocks { s with
        blocks := insertA s.blocks (hash_slow b.header) b
        hashes := insertA s.hashes b.header.number (hash_slow b.header) } bs).hashes
      = insertAllA (insertA s.hashes b.header.number (hash_slow b.header))
          (bs.map (fun b => (b.header.number, hash_slow b.header)))
    exact ih _

theorem load_blocks_transactions (s : BlockchainStorage) (bs : List Blk) :
    (load_blocks s bs).transactions = s.transactions := by
  induction bs generalizing s with
  | nil => rfl
  | cons b bs ih => exact ih _

theorem load_transactions_transactions (s : BlockchainStorage) (ts : List MinedTx) :
    (load_transactions s ts).transactions
      = insertAllA s.transactions (ts.map (fun mt => (mt.transaction_hash, mt))) := by
  induction ts generalizing s with
  | nil => rfl
  | cons mt ts ih =>
    show (load_transactions { s with
        transactions := insertA s.transactions mt.transaction_hash mt } ts).transactions
      = insertAllA (insertA s.transactions mt.transaction_hash mt)
          (ts.map (fun mt => (mt.transaction_hash, mt)))
    exact ih _

theorem load_transactions_blocks (s : BlockchainStorage) (ts : List MinedTx) :
    (load_transactions s ts).blocks = s.blocks := by
  induction ts generalizing s with
  | nil => rfl
  | cons mt ts ih => exact ih _

theorem load_transactions_hashes (s : BlockchainStorage) (ts : List MinedTx) :
    (load_transactions s ts).hashes = s.hashes := by
  induction ts generalizing s with
  | nil => rfl
  | cons mt ts ih => exact ih _

/-- C4: feeding the bytes produced by `dump_state` back through
`load_state_bytes` against a fresh (empty, unforked — the fork connection
being the volatile part) backend restores the same chain state: block env,
best head, the three storage indexes, the account state, and — when
preserved — the historical states; moreover `load_state_bytes` accepts the raw
(ungzipped) encoding of the same dump with the identical result.
Well-formedness of `X`: blocks keyed by their header hash (`hXkeys`,
`hXbnodup`), the number index is the number→hash view of the block index
(`hXhashes`, `hXhnodup`), transactions keyed by their hash (`hXtkeys`,
`hXtnodup`), account/historical keys duplicate-free, and the head indexed
(`hXbest`). -/
theorem dump_load_roundtrip (X Y : LoadState) (preserve : Bool)
    (hYb : Y.storage.blocks = []) (hYh : Y.storage.hashes = [])
    (hYt : Y.storage.transactions = [])
    (hYacc : Y.accounts = []) (hYhist : Y.historical = [])
    (hYfork : Y.fork = none)
    (hXkeys : ∀ p ∈ X.storage.blocks, p.1 = hash_slow p.2.header)
    (hXbnodup : (X.storage.blocks.map Prod.fst).Nodup)
    (hXhashes : X.storage.hashes
      = X.storage.blocks.map (fun p => (p.2.header.number, hash_slow p.2.header)))
    (hXhnodup : (X.storage.hashes.map Prod.fst).Nodup)
    (hXtkeys : ∀ p ∈ X.storage.transactions, p.1 = p.2.transaction_hash)
    (hXtnodup : (X.storage.transactions.map Prod.fst).Nodup)
    (hXanodup : (X.accounts.map Prod.fst).Nodup)
    (hXhistnodup : (X.historical.map Prod.fst).Nodup)
    (hXbest : lookupA X.storage.hashes X.storage.best_number
      = some X.storage.best_hash) :
    ∃ st', load_state_bytes Y (dump_state X preserve) = Except.ok (true, st') ∧
      load_state_bytes Y (DumpBytes.raw (serialized_state X preserve))
        = Except.ok (true, st') ∧
      st'.env.block_env = X.env.block_env ∧
      st'.storage.best_number = X.storage.best_number ∧
      st'.storage.best_hash = X.storage.best_hash ∧
      (∀ k, lookupA st'.storage.blocks k = lookupA X.storage.blocks k) ∧
      (∀ n, lookupA st'.storage.hashes n = lookupA X.storage.hashes n) ∧
      (∀ t, lookupA st'.storage.transactions t
        = lookupA X.storage.transactions t) ∧
      (∀ a, lookupA st'.accounts a = lookupA X.accounts a) ∧
      (preserve = true →
        ∀ hh, lookupA st'.historical hh = lookupA X.historical hh) := by
  have hmapb : (serialized_blocks X.storage).map (fun b => (hash_slow b.header, b))
      = X.storage.blocks := by
    rw [serialized_blocks, List.map_map]
    apply map_id_of_mem
    intro p hp
    obtain ⟨k, B⟩ := p
    have hk := hXkeys (k, B) hp
    simp only at hk
    show (hash_slow B.header, B) = (k, B)
    rw [← hk]
  have hmaph : (serialized_blocks X.storage).map
        (fun b => (b.header.number, hash_slow b.header)) = X.storage.hashes := by
    rw [serialized_blocks, List.map_map, hXhashes]
    rfl
  have hmapt : (serialized_transactions X.storage).map
        (fun mt => (mt.transaction_hash, mt)) = X.storage.transactions := by
    rw [serialized_transactions, List.map_map]
    apply map_id_of_mem
    intro p hp
    obtain ⟨k, mt⟩ := p
    have hk := hXtkeys (k, mt) hp
    simp only at hk
    show (mt.transaction_hash, mt) = (k, mt)
    rw [← hk]
  have hLb : ∀ k, lookupA (load_transactions (load_blocks Y.storage
      (serialized_blocks X.storage)) (serialized_transactions X.storage)).blocks k
      = lookupA X.storage.blocks k := by
    intro k
    rw [load_transactions_blocks, load_blocks_blocks, hYb, hmapb]
    exact lookupA_insertAllA_nil _ _ hXbnodup
  have hLh : ∀ n, lookupA (load_transactions (load_blocks Y.storage
      (serialized_blocks X.storage)) (serialized_transactions X.storage)).hashes n
      = lookupA X.storage.hashes n := by
    intro n
    rw [load_transactions_hashes, load_blocks_hashes, hYh, hmaph]
    exact lookupA_insertAllA_nil _ _ hXhnodup
  have hLt : ∀ t, lookupA (load_transactions (load_blocks Y.storage
      (serialized_blocks X.storage))
      (serialized_transactions X.storage)).transactions t
      = lookupA X.storage.transactions t := by
    intro t
    rw [load_transactions_transactions, load_blocks_transactions, hYt, hmapt]
    exact lookupA_insertAllA_nil _ _ hXtnodup
  have hlook : lookupA (load_transactions (load_blocks Y.storage
      (serialized_blocks X.storage)) (serialized_transactions X.storage)).hashes
      X.storage.best_number = some X.storage.best_hash := by
    rw [hLh]
    exact hXbest
  have hacc : ∀ a, lookupA (insertAllA Y.accounts X.accounts) a
      = lookupA X.accounts a := by
    intro a
    rw [hYacc]
    exact lookupA_insertAllA_nil _ _ hXanodup
  have hhist : ∀ hh, lookupA (insertAllA Y.historical X.historical) hh
      = lookupA X.historical hh := by
    intro hh
    rw [hYhist]
    exact lookupA_insertAllA_nil _ _ hXhistnodup
  simp only [load_state_bytes, dump_state, load_state, serialized_state,
    Option.getD_some, hYfork, hlook]
  refine ⟨_, rfl, rfl, rfl, rfl, rfl, hLb, hLh, hLt, hacc, ?_⟩
  intro hp hh
  simp only [hp, if_true]
  exact hhist hh

/-- Closed witness for `dump_load_roundtrip`: dumping the two-block example
chain (with an account and a historical-state entry) into an empty backend. -/
theorem dump_load_roundtrip_witness :
    (exEmptyLoadState.storage.blocks = [] ∧
      exEmptyLoadState.storage.hashes = [] ∧
      exEmptyLoadState.storage.transactions = [] ∧
      exEmptyLoadState.accounts = [] ∧
      exEmptyLoadState.historical = [] ∧
      exEmptyLoadState.fork = none ∧
      (∀ p ∈ exDumpLoadState.storage.blocks, p.1 = hash_slow p.2.header) ∧
      (exDumpLoadState.storage.blocks.map Prod.fst).Nodup ∧
      exDumpLoadState.storage.hashes
        = exDumpLoadState.storage.blocks.map
            (fun p => (p.2.header.number, hash_slow p.2.header)) ∧
      (exDumpLoadState.storage.hashes.map Prod.fst).Nodup ∧
      (∀ p ∈ exDumpLoadState.storage.transactions,
        p.1 = p.2.transaction_hash) ∧
      (exDumpLoadState.storage.transactions.map Prod.fst).Nodup ∧
      (exDumpLoadState.accounts.map Prod.fst).Nodup ∧
      (exDumpLoadState.historical.map Prod.fst).Nodup ∧
      lookupA exDumpLoadState.storage.hashes
          exDumpLoadState.storage.best_number
        = some exDumpLoadState.storage.best_hash) ∧
    (∃ st', load_state_bytes exEmptyLoadState (dump_state exDumpLoadState true)
        = Except.ok (true, st') ∧
      load_state_bytes exEmptyLoadState
          (DumpBytes.raw (serialized_state exDumpLoadState true))
        = Except.ok (true, st') ∧
      st'.env.block_env = exDumpLoadState.env.block_env ∧
      st'.storage.best_number = exDumpLoadState.storage.best_number ∧
      st'.storage.best_hash = exDumpLoadState.storage.best_hash ∧
      (∀ k, lookupA st'.storage.blocks k
        = lookupA exDumpLoadState.storage.blocks k) ∧
      (∀ n, lookupA st'.storage.hashes n
        = lookupA exDumpLoadState.storage.hashes n) ∧
      (∀ t, lookupA st'.storage.transactions t
        = lookupA exDumpLoadState.storage.transactions t) ∧
      (∀ a, lookupA st'.accounts a = lookupA exDumpLoadState.accounts a) ∧
      (true = true →
        ∀ hh, lookupA st'.historical hh
          = lookupA exDumpLoadState.historical hh)) :=
  ⟨⟨by decide, by decide, by decide, by decide, by decide, by decide, by decide,
    by decide, by decide, by decide, by decide, by decide, by decide, by decide,
    by decide⟩,
    dump_load_roundtrip exDumpLoadState exEmptyLoadState true (by decide)
      (by decide) (by decide) (by decide) (by decide) (by decide) (by decide)
      (by decide) (by decide) (by decide) (by decide) (by decide) (by decide)
      (by decide) (by decide)⟩

/-! ## Map-size and key lemmas (towards C8) -/

theorem removeA_of_lookup_none {α : Type} (m : List (Nat × α)) (k : Nat)
    (h : lookupA m k = none) : removeA m k = m := by
  induction m with
  | nil => rfl
  | cons p rest ih =>
    obtain ⟨a, v⟩ := p
    simp only [lookupA] at h
    by_cases hak : a = k
    · rw [if_pos hak] at h
      cases h
    · rw [if_neg hak] at h
      simp only [removeA, if_neg hak]
      rw [ih h]

theorem length_removeA_some {α : Type} (m : List (Nat × α)) (k : Nat) (v : α)
    (hnd : (m.map Prod.fst).Nodup) (h : lookupA m k = some v) :
    (removeA m k).length + 1 = m.length := by
  induction m with
  | nil => cases h
  | cons p rest ih =>
    obtain ⟨a, w⟩ := p
    simp only [List.map_cons, List.nodup_cons] at hnd
    simp only [lookupA] at h
    by_cases hak : a = k
    · simp only [removeA, if_pos hak]
      rw [removeA_of_lookup_none rest k (lookupA_eq_none (hak ▸ hnd.1))]
      rfl
    · rw [if_neg hak] at h
      have := ih hnd.2 h
      simp only [removeA, if_neg hak, List.length_cons]
      omega

theorem sizeA_insertA_none {α : Type} (m : List (Nat × α)) (k : Nat) (v : α)
    (h : lookupA m k = none) : sizeA (insertA m k v) = sizeA m + 1 := by
  simp only [insertA, sizeA, List.length_cons, removeA_of_lookup_none m k h]

theorem sizeA_insertA_some {α : Type} (m : List (Nat × α)) (k : Nat) (v v' : α)
    (hnd : (m.map Prod.fst).Nodup) (h : lookupA m k = some v') :
    sizeA (insertA m k v) = sizeA m := by
  have := length_removeA_some m k v' hnd h
  simp only [insertA, sizeA, List.length_cons]
  omega

theorem mem_removeA {α : Type} {m : List (Nat × α)} {k : Nat} {p : Nat × α}
    (h : p ∈ removeA m k) : p ∈ m := by
  induction m with
  | nil => cases h
  | cons q rest ih =>
    obtain ⟨a, v⟩ := q
    by_cases hak : a = k
    · simp only [removeA, if_pos hak] at h
      exact List.mem_cons_of_mem _ (ih h)
    · simp only [removeA, if_neg hak] at h
      rcases List.mem_cons.mp h with he | ht
      · rw [he]
        exact List.mem_cons_self _ _
      · exact List.mem_cons_of_mem _ (ih ht)

theorem mem_removeA_ne {α : Type} {m : List (Nat × α)} {k : Nat} {p : Nat × α}
    (h : p ∈ removeA m k) : p.1 ≠ k := by
  induction m with
  | nil => cases h
  | cons q rest ih =>
    obtain ⟨a, v⟩ := q
    by_cases hak : a = k
    · simp only [removeA, if_pos hak] at h
      exact ih h
    · simp only [removeA, if_neg hak] at h
      rcases List.mem_cons.mp h with he | ht
      · rw [he]
        exact hak
      · exact ih ht

theorem nodup_keys_removeA {α : Type} (m : List (Nat × α)) (k : Nat)
    (hnd : (m.map Prod.fst).Nodup) : ((removeA m k).map Prod.fst).Nodup := by
  induction m with
  | nil => exact hnd
  | cons q rest ih =>
    obtain ⟨a, v⟩ := q
    simp only [List.map_cons, List.nodup_cons] at hnd
    by_cases hak : a = k
    · simp only [removeA, if_pos hak]
      exact ih hnd.2
    · simp only [removeA, if_neg hak, List.map_cons, List.nodup_cons]
      constructor
      · intro hmem
        rcases List.mem_map.mp hmem with ⟨p, hp, hpk⟩
        exact hnd.1 (List.mem_map.mpr ⟨p, mem_removeA hp, hpk⟩)
      · exact ih hnd.2

theorem nodup_keys_insertA {α : Type} (m : List (Nat × α)) (k : Nat) (v : α)
    (hnd : (m.map Prod.fst).Nodup) : ((insertA m k v).map Prod.fst).Nodup := by
  simp only [insertA, List.map_cons, List.nodup_cons]
  constructor
  · intro hmem
    rcases List.mem_map.mp hmem with ⟨p, hp, hpk⟩
    exact mem_removeA_ne hp hpk
  · exact nodup_keys_removeA m k hnd

theorem mem_insertA {α : Type} {m : List (Nat × α)} {k : Nat} {v : α}
    {p : Nat × α} (h : p ∈ insertA m k v) : p = (k, v) ∨ p ∈ m := by
  rcases List.mem_cons.mp h with he | ht
  · exact Or.inl he
  · exact Or.inr (mem_removeA ht)

theorem hash_slow_number_inj {h1 h2 : Header} (h : hash_slow h1 = hash_slow h2) :
    h1.number = h2.number := by
  unfold hash_slow at h
  exact (Nat.pair_eq_pair.mp h).1

theorem insert_mined_txs_tx_not_mem (s : BlockchainStorage) (txs : List Nat)
    (bh bn t : Nat) (h : t ∉ txs) :
    lookupA (insert_mined_txs s txs bh bn).transactions t
      = lookupA s.transactions t := by
  induction txs generalizing s with
  | nil => rfl
  | cons a txs ih =>
    simp only [List.mem_cons] at h
    push_neg at h
    show lookupA (insert_mined_txs { s with
        transactions := insertA s.transactions a
          { transaction_hash := a, block_hash := bh, block_number := bn } }
        txs bh bn).transactions t = lookupA s.transactions t
    rw [ih _ h.2]
    exact lookupA_insertA_ne _ _ _ _ h.1

theorem remove_block_transactions_by_number_tx_none (s : BlockchainStorage)
    (p t : Nat) (h : lookupA s.transactions t = none) :
    lookupA (remove_block_transactions_by_number s p).transactions t = none := by
  simp only [remove_block_transactions_by_number]
  split
  · exact h
  · split
    · exact h
    · exact foldl_removeA_none _ _ _ h

theorem remove_block_transactions_by_number_removes (s : BlockchainStorage)
    (p hb : Nat) (B : Blk) (hh : lookupA s.hashes p = some hb)
    (hbk : lookupA s.blocks hb = some B) :
    ∀ t ∈ B.transactions,
      lookupA (remove_block_transactions_by_number s p).transactions t = none := by
  intro t ht
  simp only [remove_block_transactions_by_number, hh, hbk]
  exact foldl_removeA_mem _ _ _ ht

theorem remove_block_transactions_by_number_blocks_same (s : BlockchainStorage)
    (p h : Nat)
    (hne : ∀ hb, lookupA s.hashes p = some hb → hb ≠ h) :
    lookupA (remove_block_transactions_by_number s p).blocks h
      = lookupA s.blocks h := by
  simp only [remove_block_transactions_by_number]
  split
  · rfl
  next hb heq =>
    split
    · rfl
    next B heqb =>
      show lookupA (insertA s.blocks hb _) h = _
      exact lookupA_insertA_ne _ _ _ _ (hne hb heq).symm

theorem remove_block_transactions_by_number_blocks_target (s : BlockchainStorage)
    (p hb : Nat) (B : Blk) (hh : lookupA s.hashes p = some hb)
    (hbk : lookupA s.blocks hb = some B) :
    lookupA (remove_block_transactions_by_number s p).blocks hb
      = some { B with transactions := [] } := by
  simp only [remove_block_transactions_by_number, hh, hbk]
  exact lookupA_insertA_self _ _ _

theorem remove_block_transactions_by_number_blocks_mem (s : BlockchainStorage)
    (p : Nat) {q : Nat × Blk}
    (h : q ∈ (remove_block_transactions_by_number s p).blocks) :
    q ∈ s.blocks ∨
      ∃ hb B, lookupA s.blocks hb = some B ∧
        q = (hb, { B with transactions := [] }) := by
  revert h
  simp only [remove_block_transactions_by_number]
  split
  · exact fun h => Or.inl h
  next hb heq =>
    split
    · exact fun h => Or.inl h
    next B heqb =>
      intro h
      rcases mem_insertA h with he | hm
      · exact Or.inr ⟨hb, B, heqb, he⟩
      · exact Or.inl hm

theorem remove_block_transactions_by_number_sizeA (s : BlockchainStorage)
    (p : Nat) (hnd : (s.blocks.map Prod.fst).Nodup) :
    sizeA (remove_block_transactions_by_number s p).blocks = sizeA s.blocks := by
  simp only [remove_block_transactions_by_number]
  split
  · rfl
  next hb heq =>
    split
    · rfl
    next B heqb =>
      exact sizeA_insertA_some _ _ _ _ hnd heqb

theorem remove_block_transactions_by_number_nodup (s : BlockchainStorage)
    (p : Nat) (hnd : (s.blocks.map Prod.fst).Nodup) :
    (((remove_block_transactions_by_number s p).blocks).map Prod.fst).Nodup := by
  simp only [remove_block_transactions_by_number]
  split
  · exact hnd
  · split
    · exact hnd
    · exact nodup_keys_insertA _ _ _ hnd

theorem remove_block_transactions_by_number_hashes (s : BlockchainStorage)
    (p : Nat) :
    (remove_block_transactions_by_number s p).hashes = s.hashes := by
  simp only [remove_block_transactions_by_number]
  split
  · rfl
  · split
    · rfl
    · rfl

/-- One mining step preserves the run invariant, at the storage level: the
committed block is fresh (its hash embeds the new height), the indexes grow by
exactly the new block, and the keeper purge — which fires exactly when the
block count exceeds `K` — clears block `m + 1 - K`'s transactions. -/
theorem keeper_step_storage (K : Nat) (txss : List (List Nat)) (m : Nat)
    (s : BlockchainStorage) (env1 : Env) (block : Blk)
    (hsize : sizeA s.blocks = m + 1)
    (hnodup : (s.blocks.map Prod.fst).Nodup)
    (hkeys : ∀ p ∈ s.blocks, p.1 = hash_slow p.2.header ∧ p.2.header.number ≤ m)
    (hidx : ∀ n, n ≤ m → ∃ hb B, lookupA s.hashes n = some hb ∧
      lookupA s.blocks hb = some B ∧ B.header.number = n ∧
      (m < n + K → B.transactions = run_block_txs txss n))
    (hpurged : ∀ b, 1 ≤ b → b + K ≤ m → ∀ t ∈ run_block_txs txss b,
      lookupA s.transactions t = none)
    (hblocknum : block.header.number = m + 1)
    (hblocktxs : block.transactions = run_block_txs txss (m + 1))
    (hdisjm : ∀ b, 1 ≤ b → b ≤ m → ∀ t ∈ run_block_txs txss b,
      t ∉ run_block_txs txss (m + 1)) :
    let s3 := apply_tx_keeper (some K)
      (insert_mined_txs
        (commit_block s env1 (m + 1) block (hash_slow block.header))
        block.transactions (hash_slow block.header) (m + 1)) (m + 1)
    s3.best_number = m + 1 ∧
    sizeA s3.blocks = m + 2 ∧
    (s3.blocks.map Prod.fst).Nodup ∧
    (∀ p ∈ s3.blocks, p.1 = hash_slow p.2.header ∧
      p.2.header.number ≤ m + 1) ∧
    (∀ n, n ≤ m + 1 → ∃ hb B, lookupA s3.hashes n = some hb ∧
      lookupA s3.blocks hb = some B ∧ B.header.number = n ∧
      (m + 1 < n + K → B.transactions = run_block_txs txss n)) ∧
    (∀ b, 1 ≤ b → b + K ≤ m + 1 → ∀ t ∈ run_block_txs txss b,
      lookupA s3.transactions t = none) := by
  intro s3
  set bh := hash_slow block.header with hbh
  set s1 := commit_block s env1 (m + 1) block bh with hs1def
  set s2 := insert_mined_txs s1 block.transactions bh (m + 1) with hs2def
  have hs3 : s3 = apply_tx_keeper (some K) s2 (m + 1) := rfl
  have hpres := insert_mined_txs_preserves s1 block.transactions bh (m + 1)
  have hs2blocks : s2.blocks = insertA s.blocks bh block := hpres.1
  have hs2hashes : s2.hashes = insertA s.hashes (m + 1) bh := hpres.2.1
  have hs2best : s2.best_number = m + 1 := hpres.2.2.2
  have hs1tx : s1.transactions = s.transactions := rfl
  have hfresh : lookupA s.blocks bh = none := by
    cases hl : lookupA s.blocks bh with
    | none => rfl
    | some B =>
      exfalso
      have hmem := lookupA_mem hl
      have hk1 : bh = hash_slow B.header := (hkeys (bh, B) hmem).1
      have hle : B.header.number ≤ m := (hkeys (bh, B) hmem).2
      have heq : hash_slow B.header = hash_slow block.header := by
        rw [← hk1, hbh]
      have h2 := hash_slow_number_inj heq
      rw [hblocknum] at h2
      omega
  have hold_ne : ∀ hb B, lookupA s.blocks hb = some B → hb ≠ bh := by
    intro hb B hB hcon
    have hmem := lookupA_mem hB
    have hk1 : hb = hash_slow B.header := (hkeys (hb, B) hmem).1
    have hle : B.header.number ≤ m := (hkeys (hb, B) hmem).2
    have heq : hash_slow B.header = hash_slow block.header := by
      rw [← hk1, hcon, hbh]
    have h2 := hash_slow_number_inj heq
    rw [hblocknum] at h2
    omega
  have hs2nodup : (s2.blocks.map Prod.fst).Nodup := by
    rw [hs2blocks]
    exact nodup_keys_insertA _ _ _ hnodup
  have hs2size : sizeA s2.blocks = m + 2 := by
    rw [hs2blocks, sizeA_insertA_none _ _ _ hfresh, hsize]
  have hs2blk_new : lookupA s2.blocks bh = some block := by
    rw [hs2blocks]
    exact lookupA_insertA_self _ _ _
  have hs2blk_old : ∀ hb B, lookupA s.blocks hb = some B →
      lookupA s2.blocks hb = some B := by
    intro hb B hB
    rw [hs2blocks, lookupA_insertA_ne _ _ _ _ (hold_ne hb B hB)]
    exact hB
  have hkeys2 : ∀ q ∈ s2.blocks, q.1 = hash_slow q.2.header ∧
      q.2.header.number ≤ m + 1 := by
    intro q hq
    rw [hs2blocks] at hq
    rcases mem_insertA hq with he | hm2
    · rw [he]
      exact ⟨hbh, le_of_eq hblocknum⟩
    · have hk := hkeys q hm2
      exact ⟨hk.1, Nat.le_succ_of_le hk.2⟩
  rw [hs3]
  by_cases hK : K ≤ m + 1
  · -- the purge fires
    have hcond : K < sizeA s2.blocks := by
      rw [hs2size]
      omega
    have happly : apply_tx_keeper (some K) s2 (m + 1)
        = remove_block_transactions_by_number s2 (m + 1 - K) := by
      simp only [apply_tx_keeper, if_pos hcond]
    rw [happly]
    have hpK : (m + 1 - K) + K = m + 1 := by omega
    have htarget : ∃ hbp Bp, lookupA s2.hashes (m + 1 - K) = some hbp ∧
        lookupA s2.blocks hbp = some Bp ∧ Bp.header.number = m + 1 - K ∧
        Bp.transactions = run_block_txs txss (m + 1 - K) := by
      by_cases hK0 : K = 0
      · have hpm : m + 1 - K = m + 1 := by omega
        refine ⟨bh, block, ?_, hs2blk_new, ?_, ?_⟩
        · rw [hpm, hs2hashes]
          exact lookupA_insertA_self _ _ _
        · rw [hpm]
          exact hblocknum
        · rw [hpm]
          exact hblocktxs
      · have hpm : m + 1 - K ≤ m := by omega
        obtain ⟨hbp, Bp, hh, hb, hn, hctx⟩ := hidx (m + 1 - K) hpm
        refine ⟨hbp, Bp, ?_, hs2blk_old _ _ hb, hn, hctx (by omega)⟩
        rw [hs2hashes, lookupA_insertA_ne _ _ _ _ (by omega : m + 1 - K ≠ m + 1)]
        exact hh
    obtain ⟨hbp, Bp, htgh, htgb, htgn, htgtx⟩ := htarget
    have htgne : ∀ hb', lookupA s2.hashes (m + 1 - K) = some hb' → hb' = hbp := by
      intro hb' hh'
      rw [htgh] at hh'
      exact (Option.some.inj hh').symm
    refine ⟨?_, ?_, ?_, ?_, ?_, ?_⟩
    · rw [(remove_block_transactions_by_number_best s2 (m + 1 - K)).2.1]
      exact hs2best
    · rw [remove_block_transactions_by_number_sizeA _ _ hs2nodup]
      exact hs2size
    · exact remove_block_transactions_by_number_nodup _ _ hs2nodup
    · intro q hq
      rcases remove_block_transactions_by_number_blocks_mem s2 (m + 1 - K) hq with
        hq2 | ⟨hb', B', hB', hqe⟩
      · exact hkeys2 q hq2
      · have hk := hkeys2 (hb', B') (lookupA_mem hB')
        rw [hqe]
        exact ⟨hk.1, hk.2⟩
    · intro n hn
      by_cases hnm : n = m + 1
      · subst hnm
        have hh3 : lookupA (remove_block_transactions_by_number s2
            (m + 1 - K)).hashes (m + 1) = some bh := by
          rw [remove_block_transactions_by_number_hashes, hs2hashes]
          exact lookupA_insertA_self _ _ _
        by_cases hpbh : hbp = bh
        · have htgt := remove_block_transactions_by_number_blocks_target s2
            (m + 1 - K) hbp Bp htgh htgb
          rw [hpbh] at htgt
          have hBpb : Bp = block := by
            rw [hpbh] at htgb
            rw [hs2blk_new] at htgb
            exact (Option.some.inj htgb).symm
          have hK0 : K = 0 := by
            have : Bp.header.number = m + 1 := by rw [hBpb, hblocknum]
            omega
          refine ⟨bh, { Bp with transactions := [] }, hh3, htgt, ?_, ?_⟩
          · show Bp.header.number = m + 1
            rw [hBpb, hblocknum]
          · intro hcon
            exact absurd hcon (by omega)
        · have hb3 : lookupA (remove_block_transactions_by_number s2
              (m + 1 - K)).blocks bh = some block := by
            rw [remove_block_transactions_by_number_blocks_same s2 (m + 1 - K) bh
              (fun hb' hh' => (htgne hb' hh') ▸ hpbh)]
            exact hs2blk_new
          refine ⟨bh, block, hh3, hb3, hblocknum, fun _ => hblocktxs⟩
      · have hnm' : n ≤ m := by omega
        obtain ⟨hbn, Bn, hhn, hbkn, hnn, hcn⟩ := hidx n hnm'
        have hh3 : lookupA (remove_block_transactions_by_number s2
            (m + 1 - K)).hashes n = some hbn := by
          rw [remove_block_transactions_by_number_hashes, hs2hashes,
            lookupA_insertA_ne _ _ _ _ hnm]
          exact hhn
        have hs2bn : lookupA s2.blocks hbn = some Bn := hs2blk_old _ _ hbkn
        by_cases hbneq : hbn = hbp
        · have hBnBp : Bn = Bp := by
            rw [hbneq] at hs2bn
            rw [hs2bn] at htgb
            exact Option.some.inj htgb
          have hnp : n = m + 1 - K := by rw [← hnn, hBnBp, htgn]
          have htgt := remove_block_transactions_by_number_blocks_target s2
            (m + 1 - K) hbp Bp htgh htgb
          refine ⟨hbn, { Bp with transactions := [] }, hh3, ?_, ?_, ?_⟩
          · rw [hbneq]
            exact htgt
          · show Bp.header.number = n
            rw [htgn, hnp]
          · intro hcon
            exact absurd hcon (by omega)
        · have hb3 : lookupA (remove_block_transactions_by_number s2
              (m + 1 - K)).blocks hbn = some Bn := by
            rw [remove_block_transactions_by_number_blocks_same s2 (m + 1 - K) hbn
              (fun hb' hh' => (htgne hb' hh') ▸ fun hc => hbneq hc.symm)]
            exact hs2bn
          exact ⟨hbn, Bn, hh3, hb3, hnn, fun hcon => hcn (by omega)⟩
    · intro b hb1 hbK t ht
      by_cases hbm : b + K ≤ m
      · have hnone : lookupA s1.transactions t = none := hpurged b hb1 hbm t ht
        have htnotin : t ∉ block.transactions := by
          rw [hblocktxs]
          exact hdisjm b hb1 (by omega) t ht
        have hs2n : lookupA s2.transactions t = none := by
          rw [show lookupA s2.transactions t = lookupA s1.transactions t from
            insert_mined_txs_tx_not_mem s1 block.transactions bh (m + 1) t htnotin]
          exact hnone
        exact remove_block_transactions_by_number_tx_none s2 (m + 1 - K) t hs2n
      · have hbp' : b = m + 1 - K := by omega
        have htb : t ∈ Bp.transactions := by
          rw [htgtx, ← hbp']
          exact ht
        exact remove_block_transactions_by_number_removes s2 (m + 1 - K) hbp Bp
          htgh htgb t htb
  · -- the purge does not fire
    have hcond : ¬K < sizeA s2.blocks := by
      rw [hs2size]
      omega
    have happly : apply_tx_keeper (some K) s2 (m + 1) = s2 := by
      simp only [apply_tx_keeper, if_neg hcond]
    rw [happly]
    refine ⟨hs2best, hs2size, hs2nodup, hkeys2, ?_, ?_⟩
    · intro n hn
      by_cases hnm : n = m + 1
      · subst hnm
        refine ⟨bh, block, ?_, hs2blk_new, hblocknum, fun _ => hblocktxs⟩
        rw [hs2hashes]
        exact lookupA_insertA_self _ _ _
      · have hnm' : n ≤ m := by omega
        obtain ⟨hbn, Bn, hhn, hbkn, hnn, hcn⟩ := hidx n hnm'
        refine ⟨hbn, Bn, ?_, hs2blk_old _ _ hbkn, hnn, fun hcon => hcn (by omega)⟩
        rw [hs2hashes, lookupA_insertA_ne _ _ _ _ hnm]
        exact hhn
    · intro b hb1 hbK t ht
      exact absurd hbK (by omega)

/-- One `do_mine_block` call preserves the mining-run invariant. -/
theorem mine_run_step (K : Nat) (txss : List (List Nat)) (m : Nat) (st : MineState)
    (hinv : MineRunInv K txss m st)
    (hm : m < txss.length)
    (hbound : m + 1 < 2 ^ 64)
    (hdisj : ∀ i < txss.length, ∀ j < txss.length, i ≠ j →
      ∀ t ∈ txss.getD i [], t ∉ txss.getD j []) :
    MineRunInv K txss (m + 1) (do_mine_block (some K) st 0 0 (txss.getD m [])).2 := by
  obtain ⟨hienv, hibest, hisize, hinodup, hikeys, hiidx, hipurged⟩ := hinv
  have hnum : st.env.block_env.number = st.storage.best_number := by
    rw [hienv, hibest]
  have hbnd' : st.storage.best_number + 1 < 2 ^ 64 := by
    rw [hibest]
    exact hbound
  have henvn := mine_env_number st 0 0 hnum hbnd'
  have hsat : saturating_add64 st.storage.best_number 1 = m + 1 := by
    unfold saturating_add64
    omega
  have hblocknum : (execute_transactions (mine_env st 0 0).block_env
      (mine_env st 0 0).cfg_env st.storage.best_hash
      (txss.getD m [])).header.number = m + 1 := by
    show (mine_env st 0 0).block_env.number = m + 1
    rw [henvn, hibest]
  have hblocktxs : (execute_transactions (mine_env st 0 0).block_env
      (mine_env st 0 0).cfg_env st.storage.best_hash
      (txss.getD m [])).transactions = run_block_txs txss (m + 1) := by
    show txss.getD m [] = run_block_txs txss (m + 1)
    simp [run_block_txs]
  have hdisjm : ∀ b, 1 ≤ b → b ≤ m → ∀ t ∈ run_block_txs txss b,
      t ∉ run_block_txs txss (m + 1) := by
    intro b h1 h2 t ht
    have hb0 : ¬b = 0 := by omega
    simp only [run_block_txs, if_neg hb0] at ht
    simp only [run_block_txs, if_neg (by omega : ¬m + 1 = 0)]
    have hbm1 : b - 1 < txss.length := by omega
    exact hdisj (b - 1) hbm1 m hm (by omega) t
      (by simpa using ht)
  have hmain := keeper_step_storage K txss m st.storage (mine_env st 0 0)
      (execute_transactions (mine_env st 0 0).block_env (mine_env st 0 0).cfg_env
        st.storage.best_hash (txss.getD m []))
      hisize hinodup hikeys hiidx hipurged hblocknum hblocktxs hdisjm
  have hstor : (do_mine_block (some K) st 0 0 (txss.getD m [])).2.storage
      = apply_tx_keeper (some K)
        (insert_mined_txs
          (commit_block st.storage (mine_env st 0 0) (m + 1)
            (execute_transactions (mine_env st 0 0).block_env
              (mine_env st 0 0).cfg_env st.storage.best_hash (txss.getD m []))
            (hash_slow (execute_transactions (mine_env st 0 0).block_env
              (mine_env st 0 0).cfg_env st.storage.best_hash
              (txss.getD m [])).header))
          (execute_transactions (mine_env st 0 0).block_env
            (mine_env st 0 0).cfg_env st.storage.best_hash
            (txss.getD m [])).transactions
          (hash_slow (execute_transactions (mine_env st 0 0).block_env
            (mine_env st 0 0).cfg_env st.storage.best_hash
            (txss.getD m [])).header)
          (m + 1)) (m + 1) := by
    rw [← hsat]
    rfl
  refine ⟨?_, ?_, ?_, ?_, ?_, ?_, ?_⟩
  · show (mine_env st 0 0).block_env.number = m + 1
    rw [henvn, hibest]
  · rw [hstor]
    exact hmain.1
  · rw [hstor]
    exact hmain.2.1
  · rw [hstor]
    exact hmain.2.2.1
  · rw [hstor]
    exact hmain.2.2.2.1
  · rw [hstor]
    exact hmain.2.2.2.2.1
  · rw [hstor]
    exact hmain.2.2.2.2.2

/-- The mining-run invariant propagates along any suffix of the run. -/
theorem mine_run_inv_aux (K : Nat) (txss : List (List Nat))
    (hN : txss.length < 2 ^ 64)
    (hdisj : ∀ i < txss.length, ∀ j < txss.length,
      ∀ t ∈ txss.getD i [], t ∈ txss.getD j [] → i = j) :
    ∀ (suffix : List (List Nat)) (m : Nat) (st : MineState),
      suffix = txss.drop m →
      MineRunInv K txss m st →
      MineRunInv K txss (m + suffix.length)
        (suffix.foldl (fun s txs => (do_mine_block (some K) s 0 0 txs).2) st) := by
  have hdisj' : ∀ i < txss.length, ∀ j < txss.length, i ≠ j →
      ∀ t ∈ txss.getD i [], t ∉ txss.getD j [] := by
    intro i hi j hj hne t ht hmem
    exact hne (hdisj i hi j hj t ht hmem)
  intro suffix
  induction suffix with
  | nil =>
    intro m st _ hinv
    simpa using hinv
  | cons txs suffix ih =>
    intro m st hdrop hinv
    have hm : m < txss.length := by
      by_contra hc
      push_neg at hc
      rw [List.drop_eq_nil_of_le hc] at hdrop
      cases hdrop
    have htxs : txss.getD m [] = txs := by
      have h1 : (txss.drop m).head? = some txs := by rw [← hdrop]; rfl
      rw [List.head?_drop] at h1
      simp [List.getD, h1]
    have hsuffix : suffix = txss.drop (m + 1) := by
      calc suffix = (txs :: suffix).tail := rfl
        _ = (txss.drop m).tail := by rw [hdrop]
        _ = txss.drop (m + 1) := List.tail_drop txss m
    have hstep := mine_run_step K txss m st hinv hm (by omega) hdisj'
    rw [htxs] at hstep
    have hrest := ih (m + 1) ((do_mine_block (some K) st 0 0 txs).2) hsuffix hstep
    show MineRunInv K txss (m + (txs :: suffix).length)
      ((txs :: suffix).foldl (fun s txs => (do_mine_block (some K) s 0 0 txs).2) st)
    simp only [List.length_cons, List.foldl_cons]
    rw [show m + (suffix.length + 1) = m + 1 + suffix.length by omega]
    exact hrest

/-- C8: with `transaction_block_keeper = Some(K)`, after a run of `mine_block`
calls mines block `N` (with `N > K`) on top of a genesis-shaped backend, the
transactions of block `N - K - 1` are purged from the transaction index
(`storage.transactions`), while that block's header remains retrievable from
blockchain storage through the number index and the block index.  The genesis
shape and the pairwise disjointness of the mined transaction-hash lists are the
explicit hypotheses. -/
theorem transaction_block_keeper_purges (K N : Nat) (txss : List (List Nat))
    (st0 : MineState) (G : Blk)
    (hlen : txss.length = N)
    (hNK : K < N)
    (hbound : N < 2 ^ 64)
    (hG0 : G.header.number = 0)
    (hGtx : G.transactions = [])
    (hblocks0 : st0.storage.blocks = [(hash_slow G.header, G)])
    (hhashes0 : st0.storage.hashes = [(0, hash_slow G.header)])
    (htxs0 : st0.storage.transactions = [])
    (hbest0 : st0.storage.best_number = 0)
    (henv0 : st0.env.block_env.number = 0)
    (hdisj : ∀ i < txss.length, ∀ j < txss.length,
      ∀ t ∈ txss.getD i [], t ∈ txss.getD j [] → i = j) :
    (∃ hb B, lookupA (mine_run (some K) st0 txss).storage.hashes (N - K - 1)
        = some hb ∧
      lookupA (mine_run (some K) st0 txss).storage.blocks hb = some B ∧
      B.header.number = N - K - 1) ∧
    (∀ t ∈ run_block_txs txss (N - K - 1),
      lookupA (mine_run (some K) st0 txss).storage.transactions t = none) := by
  have hinv0 : MineRunInv K txss 0 st0 := by
    refine ⟨henv0, hbest0, ?_, ?_, ?_, ?_, ?_⟩
    · rw [hblocks0]; rfl
    · rw [hblocks0]; simp
    · intro p hp
      rw [hblocks0] at hp
      rcases List.mem_cons.mp hp with he | h
      · rw [he]; exact ⟨rfl, le_of_eq hG0⟩
      · cases h
    · intro n hn
      have hn0 : n = 0 := by omega
      subst hn0
      refine ⟨hash_slow G.header, G, ?_, ?_, hG0, ?_⟩
      · rw [hhashes0]; rfl
      · rw [hblocks0]; simp [lookupA]
      · intro _
        rw [hGtx]; rfl
    · intro b hb1 hbK t ht
      rw [htxs0]; rfl
  have hrun := mine_run_inv_aux K txss (by omega) hdisj txss 0 st0 rfl hinv0
  have hN' : MineRunInv K txss N (mine_run (some K) st0 txss) := by
    have hlen' : (0 : Nat) + txss.length = N := by omega
    rw [hlen'] at hrun
    exact hrun
  obtain ⟨_, _, _, _, _, hidxN, hpurgedN⟩ := hN'
  constructor
  · obtain ⟨hb, B, h1, h2, h3, _⟩ := hidxN (N - K - 1) (by omega)
    exact ⟨hb, B, h1, h2, h3⟩
  · intro t ht
    by_cases hb0 : N - K - 1 = 0
    · rw [hb0] at ht
      simp [run_block_txs] at ht
    · exact hpurgedN (N - K - 1) (by omega) (by omega) t ht

/-- Witness: keeper `K = 1`, three blocks mined on the example genesis with
distinct transaction hashes 101 / 102 / 103; block `1 = 3 - 1 - 1` stays
retrievable through both indexes while its transaction 101 is gone from the
transaction index. -/
theorem transaction_block_keeper_purges_witness :
    (∃ hb B,
      lookupA (mine_run (some 1) exMineState [[101], [102], [103]]).storage.hashes
          (3 - 1 - 1) = some hb ∧
      lookupA (mine_run (some 1) exMineState [[101], [102], [103]]).storage.blocks
          hb = some B ∧
      B.header.number = 3 - 1 - 1) ∧
    (∀ t ∈ run_block_txs [[101], [102], [103]] (3 - 1 - 1),
      lookupA (mine_run (some 1) exMineState
          [[101], [102], [103]]).storage.transactions t = none) :=
  transaction_block_keeper_purges 1 3 [[101], [102], [103]] exMineState
    exGenesisBlock rfl (by decide) (by decide) rfl rfl rfl rfl rfl rfl rfl
    (by decide)

end Anvil
